import Mathlib

/-!
# Searcher: chunked substring scan and its dispatcher

A shallow embedding of `constants.h`, `utils.cpp`, `file_searcher.cpp`,
`dir_dispatcher.h` and `main.cpp`.  A C++ `char` is a `Char`, a file is the list of its bytes, and an
output stream is the list of what was written to it.  The `std::size_t`
variables of the scan are natural numbers: the two subtractions of the loop
(`window_len - padding`, `buff_len - padding`) never go below zero on a run of
the loop, and `window_len - AFIX_LEN` is overwritten in the one case where it
would wrap.
-/

namespace Searcher

/-! ## constants.h -/

/-- Length of the prefix and suffix. -/
def AFIX_LEN : Nat := 3

/-- Max length of the needle. -/
def MAX_NEEDLE_LEN : Nat := 128

/-- Min length of buffer read at once. -/
def BUF_LEN_MIN : Nat := AFIX_LEN + MAX_NEEDLE_LEN + 2

/-- Max length of buffer read at once. -/
def BUF_LEN_MAX : Nat := 500 * 1024

/-- Min length to consider spawning a parallel search. -/
def MIN_BUF_LEN_FOR_ASYNC : Nat := BUF_LEN_MAX * 100

/-- Fallback number of threads. -/
def DEFAULT_THREADS_NUM : Nat := 2

/-! ## utils.cpp -/

/-- The characters `print_char(c, out)` appends to `out`. -/
def print_char (c : Char) : List Char :=
  if c ≠ '\n' ∧ c ≠ '\t' then [c]
  else if c = '\n' then ['\\', 'n']
  else ['\\', 't']

/-- The string `trim_quotation_marks(s)` leaves in `s`: the last character is
erased when `s.size() > 1` and it is a quotation mark, then the first one when
it is a quotation mark (`s[0]` of an empty string is the terminating zero). -/
def trim_quotation_marks (s : List Char) : List Char :=
  let s1 := if 1 < s.length ∧ s.getLast? = some '"' then s.dropLast else s
  if s1.head? = some '"' then s1.tail else s1

/-! ## file_searcher.cpp -/

/-- One match line written by the scan: the absolute offset printed between the
brackets, and the characters printed before and after the `...` separator. -/
structure Match where
  offset : Nat
  pre : List Char
  suf : List Char
deriving DecidableEq, Repr

/-- The needle stands at index `p` of the buffer. -/
def needle_at (needle buffer : List Char) (p : Nat) : Bool :=
  (buffer.drop p).take needle.length == needle

/-- The contract of `m_boyer_moore(buffer + first, buffer + last).first` (the
Boost searcher is a library of its own): the index of the first occurrence of
the needle that lies inside `[first, last)`, and `last` when there is none. -/
def boyer_moore (needle buffer : List Char) (first last : Nat) : Nat :=
  ((List.range' first (last + 1 - (first + needle.length))).find?
    (needle_at needle buffer)).getD last

/-- The prefix loop: `i` runs from `AFIX_LEN` down to 1 and `buffer[p - i]` is
printed when `maybe_str - i >= buffer`. -/
def context_before (buffer : List Char) (p : Nat) : List Char :=
  ((List.range' 1 AFIX_LEN).reverse.map fun i =>
    if i ≤ p then print_char (buffer.getD (p - i) (Char.ofNat 0)) else []).flatten

/-- The suffix loop: `i` runs from 0 up to `AFIX_LEN - 1` and
`buffer[p + needle.size() + i]` is printed when it lies before
`buffer + window_len`. -/
def context_after (needle buffer : List Char) (window_len p : Nat) : List Char :=
  ((List.range AFIX_LEN).map fun i =>
    if p + needle.length + i < window_len then
      print_char (buffer.getD (p + needle.length + i) (Char.ofNat 0))
    else []).flatten

/-- The local variables of `FileSearcher::operator()` at the head of its outer
loop, the state of the input stream (`in_good` is `bool(in)`, `in_pos` the
number of bytes extracted so far) and the match lines written so far. -/
structure ScanState where
  in_good : Bool
  in_pos : Nat
  buffer : List Char
  window_len : Nat
  hay_len : Nat
  window_pos_in_file : Nat
  padding : Nat
  hay_start_pos : Nat
  out : List Match
deriving DecidableEq, Repr

/-- The state before the first pass: the stream is open and good, the buffer
has `buff_len + 1` cells (their initial content is never read). -/
def init_state (buff_len : Nat) : ScanState where
  in_good := true
  in_pos := 0
  buffer := List.replicate (buff_len + 1) (Char.ofNat 0)
  window_len := 0
  hay_len := 0
  window_pos_in_file := 0
  padding := 0
  hay_start_pos := 0
  out := []

/-- Lines 56-78: the refill.  `in.read(buffer + padding, buff_len - padding)`
extracts the bytes that are left, at most `buff_len - padding` of them, and the
stream stays good exactly when it got all it asked for. -/
def refill (src : List Char) (buff_len : Nat) (s : ScanState) : ScanState :=
  if s.in_good then
    let got := (src.drop s.in_pos).take (buff_len - s.padding)
    let window_len := s.padding + got.length
    { s with
      in_good := decide (got.length = buff_len - s.padding)
      in_pos := s.in_pos + got.length
      buffer := s.buffer.take s.padding ++ got ++ s.buffer.drop (s.padding + got.length)
      window_pos_in_file := s.window_pos_in_file + (s.window_len - s.padding)
      window_len := window_len
      hay_len := if window_len ≤ AFIX_LEN then window_len else window_len - AFIX_LEN }
  else
    { s with hay_len := s.window_len }

/-- Lines 81-114: the inner loop, with a bound on its number of rounds (each
round moves `hay_start_pos` forward, so `hay_len` rounds are enough). -/
def inner_scan (needle : List Char) : Nat → ScanState → ScanState
  | 0, s => s
  | fuel + 1, s =>
    if s.hay_start_pos + needle.length < s.hay_len then
      let p := boyer_moore needle s.buffer s.hay_start_pos s.hay_len
      if p = s.hay_len then s
      else
        inner_scan needle fuel
          { s with
            out := s.out ++ [{ offset := s.window_pos_in_file + p
                               pre := context_before s.buffer p
                               suf := context_after needle s.buffer s.window_len p }]
            hay_start_pos := p + 1 }
    else s

/-- Lines 116-123: the new padding, and the carry copy when the stream is still
good (`std::copy` of the last `padding` bytes of the window to its start). -/
def prepare_next (needle : List Char) (s : ScanState) : ScanState :=
  let padding := AFIX_LEN + needle.length + 2
  if s.in_good then
    { s with
      padding := padding
      hay_start_pos := AFIX_LEN
      buffer := (s.buffer.drop (s.window_len - padding)).take padding ++ s.buffer.drop padding }
  else
    { s with padding := padding }

/-- One pass of the outer loop. -/
def pass (src needle : List Char) (buff_len : Nat) (s : ScanState) : ScanState :=
  let s1 := refill src buff_len s
  prepare_next needle (inner_scan needle s1.hay_len s1)

/-- The condition of the outer loop, `in || hay_len < window_len`. -/
def loop_cond (s : ScanState) : Bool :=
  s.in_good || decide (s.hay_len < s.window_len)

/-- The state after at most `k` passes of the outer loop (it stays where it is
once the loop has been left). -/
def passes (src needle : List Char) (buff_len : Nat) : Nat → ScanState → ScanState
  | 0, s => s
  | k + 1, s => if loop_cond s then passes src needle buff_len k (pass src needle buff_len s) else s

/-- The outer loop run for at most `fuel + 1` tests of its condition: the state
in which it is left, or `none` when it is still running. -/
def scan_loop (src needle : List Char) (buff_len : Nat) : Nat → ScanState → Option ScanState
  | 0, s => if loop_cond s then none else some s
  | k + 1, s =>
    if loop_cond s then scan_loop src needle buff_len k (pass src needle buff_len s) else some s

/-- Lines 32-38: the buffer length chosen for a file of the given size. -/
def buff_len_of (file_size : Nat) : Nat :=
  let b := if file_size < BUF_LEN_MIN then BUF_LEN_MIN else file_size
  if b > BUF_LEN_MAX then BUF_LEN_MAX else b

/-- The decimal digits `out << n` writes for a `std::size_t`. -/
def decimal (n : Nat) : List Char := Nat.toDigits 10 n

/-- One match line as written to `out`. -/
def match_line (file_name : List Char) (m : Match) : List Char :=
  file_name ++ ['('] ++ decimal m.offset ++ [')', ':'] ++ m.pre ++ ['.', '.', '.'] ++ m.suf ++ ['\n']

/-- The text written to `out` for a sequence of matches. -/
def render (file_name : List Char) (ms : List Match) : List Char :=
  (ms.map (match_line file_name)).flatten

/-- The state of `FileSearcher::operator()` on an opened file with content
`src` after at most `k` passes of its loop; its `out` holds the match lines
written so far.  When the loop is left within `k` passes this is the state in
which it is left. -/
def scan_after (needle src : List Char) (k : Nat) : ScanState :=
  passes src needle (buff_len_of src.length) k (init_state (buff_len_of src.length))

/-- What a run of `FileSearcher::operator()` wrote, to its `out` parameter and
to `std::cout`. -/
structure Written where
  out : List Char
  cout : List Char
deriving DecidableEq, Repr

/-- The run of `FileSearcher::operator()` on a path whose `filename()` is
`file_name`: `file` is the content of the file, or `none` when it cannot be
opened (then the message goes to `std::cout` and nothing to `out`).  The result
is what was written, or `none` when the loop is still running after `fuel`
passes.  The allocation of the buffer is taken to succeed. -/
def FileSearcher.call (needle file_name : List Char) (file : Option (List Char)) (fuel : Nat) :
    Option Written :=
  match file with
  | none =>
    some ⟨[], "Could not open file ".toList ++ trim_quotation_marks file_name ++ ['\n']⟩
  | some src =>
    (scan_loop src needle (buff_len_of src.length) fuel (init_state (buff_len_of src.length))).map
      fun s => ⟨render (trim_quotation_marks file_name) s.out, []⟩

/-! ## Specification vocabulary and loop invariants -/

/-- The bytes `[a, b)` of a list (clipped at its end). -/
def slice (l : List Char) (a b : Nat) : List Char := (l.take b).drop a

/-- The escaped rendering of a byte sequence. -/
def escaped (l : List Char) : List Char := (l.map print_char).flatten

/-- What a correct match line says about the source: the offset is that of a
real occurrence, and the two contexts are the escaped bytes around it. -/
structure GoodMatch (src needle : List Char) (m : Match) : Prop where
  inside : m.offset + needle.length ≤ src.length
  occ : (src.drop m.offset).take needle.length = needle
  pre_eq : m.pre = escaped (slice src (m.offset - AFIX_LEN) m.offset)
  suf_eq : m.suf = escaped (slice src (m.offset + needle.length)
    (min src.length (m.offset + needle.length + AFIX_LEN)))

/-- The state of a pass between the refill and the carry copy: the window
holds the source bytes at its file position, and every line written so far is
right, below the scan cursor and in increasing order. -/
structure MidInv (src needle : List Char) (B : Nat) (s : ScanState) : Prop where
  buf_len : s.buffer.length = B + 1
  win_le : s.window_len ≤ B
  win_src : s.window_pos_in_file + s.window_len ≤ src.length
  window : ∀ i, i < s.window_len → s.buffer[i]? = src[s.window_pos_in_file + i]?
  hay_le : s.hay_len ≤ s.window_len
  good : s.in_good = true →
    s.hay_start_pos + needle.length + 2 ≤ s.window_len ∧ s.hay_len + 3 ≤ s.window_len ∧
    s.window_pos_in_file + s.window_len = s.in_pos ∧ needle.length + 5 ≤ s.window_len
  bad : s.in_good = false →
    s.window_pos_in_file + s.window_len = src.length ∧ s.in_pos = src.length
  cursor : 3 ≤ s.hay_start_pos ∨ s.window_pos_in_file = 0
  out_lt : ∀ m ∈ s.out, m.offset < s.window_pos_in_file + s.hay_start_pos
  out_sorted : s.out.Pairwise (fun a b => a.offset < b.offset)
  out_good : ∀ m ∈ s.out, GoodMatch src needle m

/-- The state at the head of the outer loop. -/
structure HeadInv (src needle : List Char) (B : Nat) (s : ScanState) : Prop where
  buf_len : s.buffer.length = B + 1
  good : s.in_good = true →
    s.padding ≤ s.window_len ∧ s.padding ≤ B ∧
    s.window_pos_in_file + s.window_len = s.in_pos ∧ s.in_pos ≤ src.length ∧
    (∀ i, i < s.padding → s.buffer[i]? = src[s.in_pos - s.padding + i]?) ∧
    ((s.padding = 0 ∧ s.hay_start_pos = 0 ∧ s.in_pos = 0) ∨
      (s.padding = needle.length + 5 ∧ s.hay_start_pos = 3)) ∧
    ∀ m ∈ s.out, m.offset < s.in_pos - s.padding + s.hay_start_pos
  bad : s.in_good = false →
    s.window_len ≤ B ∧ s.window_pos_in_file + s.window_len = src.length ∧
    s.in_pos = src.length ∧
    (∀ i, i < s.window_len → s.buffer[i]? = src[s.window_pos_in_file + i]?) ∧
    (3 ≤ s.hay_start_pos ∨ s.window_pos_in_file = 0) ∧
    ∀ m ∈ s.out, m.offset < s.window_pos_in_file + s.hay_start_pos
  out_sorted : s.out.Pairwise (fun a b => a.offset < b.offset)
  out_good : ∀ m ∈ s.out, GoodMatch src needle m
  hay_le : s.hay_len ≤ s.window_len

/-- The two contexts of a match line hold no raw newline and no raw tab. -/
structure NoRaw (m : Match) : Prop where
  pre_nl : '\n' ∉ m.pre
  pre_tab : '\t' ∉ m.pre
  suf_nl : '\n' ∉ m.suf
  suf_tab : '\t' ∉ m.suf

/-- A bound on the number of passes still to come: the unread bytes while the
stream is good, then one pass for the reserved tail. -/
def passes_left (src : List Char) (s : ScanState) : Nat :=
  if s.in_good then src.length - s.in_pos + 2
  else if s.hay_len < s.window_len then 1 else 0

/-! ## main.cpp -/

/-- What `boost::filesystem` answers about a path: the status queries used by
`main` (an `error` is a thrown exception, with its `what()` text) and the
`filename()` of a path. -/
structure FileSystem where
  path_exists : List Char → Except (List Char) Bool
  is_regular_file : List Char → Except (List Char) Bool
  is_symlink : List Char → Except (List Char) Bool
  is_directory : List Char → Except (List Char) Bool
  filename : List Char → List Char

/-- The search `main` starts, if any. -/
inductive Search where
  | none
  | file_search (needle path : List Char)
  | directory_search (needle path : List Char)
deriving DecidableEq, Repr

/-- What a run of `main` leaves behind: its exit status, the text written to
`std::cerr`, and the search it started. -/
structure MainResult where
  status : Int
  cerr : List Char
  search : Search
deriving DecidableEq, Repr

/-- The text `print_usage(application)` writes to `std::cerr`. -/
def print_usage (fs : FileSystem) (application : List Char) : List Char :=
  "Usage:\n".toList ++ fs.filename application ++ " FILE STRING\n".toList ++
    fs.filename application ++ " DIRECTORY STRING\n".toList

/-- The text `return_from_fs_call_or_exit` writes before `exit(-1)`. -/
def inspect_error (param what : List Char) : List Char :=
  "Error while inspecting : ".toList ++ param ++ " : ".toList ++ what ++ ['\n']

/-- A run of `file_can_be_searched`: both queries are made, either may end the
process through `exit(-1)` (an `error` carrying the text written). -/
def file_can_be_searched (fs : FileSystem) (file_path : List Char) : Except (List Char) Bool :=
  match fs.is_regular_file file_path with
  | .error what => .error (inspect_error file_path what)
  | .ok is_regular_file =>
    match fs.is_symlink file_path with
    | .error what => .error (inspect_error file_path what)
    | .ok is_symlink => .ok (is_regular_file && !is_symlink)

/-- A run of `main` on the argument vector `argv` (program name first). -/
def main (argv : List (List Char)) (fs : FileSystem) : MainResult :=
  let app := argv.headD []
  if argv.length ≠ 3 then
    ⟨-1, "Wrong number of arguments\n".toList ++ print_usage fs app, .none⟩
  else
    let target := argv.getD 1 []
    let needle := argv.getD 2 []
    if target = [] ∨ needle = [] then
      ⟨-1, "Empty parameter\n".toList ++ print_usage fs app, .none⟩
    else if needle.length > MAX_NEEDLE_LEN then
      ⟨-1, "STRING longer than ".toList ++ decimal MAX_NEEDLE_LEN ++ ['\n'] ++ print_usage fs app,
        .none⟩
    else
      match fs.path_exists target with
      | .error what => ⟨-1, inspect_error target what, .none⟩
      | .ok false =>
        ⟨0, "File not found: ".toList ++ trim_quotation_marks target ++ ['\n'] ++
          print_usage fs app, .none⟩
      | .ok true =>
        match file_can_be_searched fs target with
        | .error text => ⟨-1, text, .none⟩
        | .ok true => ⟨0, [], .file_search needle target⟩
        | .ok false =>
          match fs.is_directory target with
          | .error what => ⟨-1, inspect_error target what, .none⟩
          | .ok true => ⟨0, [], .directory_search needle target⟩
          | .ok false => ⟨0, [], .none⟩

/-! ## dir_dispatcher.h -/

/-- A file met by the directory traversal: its path, the `filename()` of the
path, its content, whether `std::ifstream` opens it, and the `what()` of the
`filesystem_error` that `fs::file_size` throws on it, if it throws. -/
structure File where
  path : List Char
  file_name : List Char
  bytes : List Char
  openable : Bool
  size_error : Option (List Char)
deriving DecidableEq, Repr

/-- How a run stops before its end: `exit(status)`, an exception nobody
catches, or a scan that never returns. -/
inductive Stop where
  | exited (status : Int)
  | terminated
  | hung
deriving DecidableEq, Repr

/-- The call `m_file_searcher(path, out)` on a file of the traversal: what it
writes, or `none` when its loop never ends (`S + 2` passes are enough for every
loop that ends). -/
def m_file_searcher (needle : List Char) (f : File) : Option Written :=
  FileSearcher.call needle f.file_name (if f.openable then some f.bytes else none)
    (f.bytes.length + 2)

/-- The members of a `DirDispatcherAsync` (a deferred task is the file it will
scan; its private stream starts empty) and the state of the process: the text
on `std::cout` and `std::cerr`, and whether the run has stopped. -/
structure AsyncState where
  m_threads_num : Nat
  m_futures : List File
  m_ostreams : List (List Char)
  cout : List Char
  cerr : List Char
  stop : Option Stop
deriving DecidableEq, Repr

/-- The bound the constructor computes from `std::thread::hardware_concurrency()`. -/
def threads_num (hardware_concurrency : Nat) : Nat :=
  if hardware_concurrency / 2 = 0 then DEFAULT_THREADS_NUM else hardware_concurrency / 2

/-- A dispatcher with bound `k` and no task, in a process that has written
nothing. -/
def async_init (k : Nat) : AsyncState :=
  ⟨k, [], [], [], [], none⟩

/-- The constructor `DirDispatcherAsync(needle)`. -/
def DirDispatcherAsync.new (hardware_concurrency : Nat) : AsyncState :=
  async_init (threads_num hardware_concurrency)

/-- The loop of `conclude_search` over the tasks and their streams:
`m_futures[i].wait()` runs the deferred scan, which fills the private stream
(and writes to `std::cout` when the file cannot be opened), then the stream is
copied to `std::cout`. -/
def flush_tasks (needle : List Char) : List (File × List Char) → AsyncState → AsyncState
  | [], st => st
  | (f, buf) :: rest, st =>
    match m_file_searcher needle f with
    | none => { st with stop := some Stop.hung }
    | some w => flush_tasks needle rest { st with cout := st.cout ++ w.cout ++ (buf ++ w.out) }

/-- The method `conclude_search`: every task is waited for and its stream
written, in submission order, then both vectors are cleared.  Nothing happens
in a process that has stopped. -/
def conclude_search (needle : List Char) (st : AsyncState) : AsyncState :=
  if st.stop.isSome then st
  else
    let st1 := flush_tasks needle (st.m_futures.zip st.m_ostreams) st
    if st1.stop.isSome then st1 else { st1 with m_futures := [], m_ostreams := [] }

/-- The two `push_back` of `dispatch_search`: a deferred task for the file and
its empty private stream. -/
def submit (st : AsyncState) (f : File) : AsyncState :=
  { st with m_futures := st.m_futures ++ [f], m_ostreams := st.m_ostreams ++ [[]] }

/-- The text written to `std::cerr` when `fs::file_size` throws. -/
def size_error_text (f : File) (what : List Char) : List Char :=
  "Error while getting the size of ".toList ++ f.path ++ " : ".toList ++ what ++ ['\n']

/-- The method `DirDispatcherAsync::dispatch_search`. -/
def dispatch_search (needle : List Char) (st : AsyncState) (f : File) : AsyncState :=
  if st.stop.isSome then st
  else
    match f.size_error with
    | some what =>
      { st with cerr := st.cerr ++ size_error_text f what, stop := some (Stop.exited (-1)) }
    | none =>
      if f.bytes.length > MIN_BUF_LEN_FOR_ASYNC then
        let st1 := submit st f
        if st1.m_futures.length ≥ st1.m_threads_num then conclude_search needle st1 else st1
      else
        match m_file_searcher needle f with
        | none => { st with stop := some Stop.hung }
        | some w => { st with cout := st.cout ++ w.cout ++ w.out }

/-- The calls `DirDispatcherCRTP::operator()` makes on a traversal whose entries
are all searchable: `dispatch_search` on each file in order, then
`conclude_search`. -/
def run_async (needle : List Char) (k : Nat) (files : List File) : AsyncState :=
  conclude_search needle (files.foldl (dispatch_search needle) (async_init k))

/-- The state of the process under a `DirDispatcherSync`. -/
structure SyncState where
  cout : List Char
  cerr : List Char
  stop : Option Stop
deriving DecidableEq, Repr

/-- The method `DirDispatcherSync::dispatch_search`, `m_file_searcher(path,
std::cout)`; the `fs::file_size` of `FileSearcher::operator()` throws past
`main` when the size of an opened file cannot be queried. -/
def sync_dispatch_search (needle : List Char) (st : SyncState) (f : File) : SyncState :=
  if st.stop.isSome then st
  else if f.openable ∧ f.size_error.isSome then { st with stop := some Stop.terminated }
  else
    match m_file_searcher needle f with
    | none => { st with stop := some Stop.hung }
    | some w => { st with cout := st.cout ++ w.cout ++ w.out }

/-- The calls of `DirDispatcherCRTP::operator()` under a `DirDispatcherSync`
(its `conclude_search` does nothing). -/
def run_sync (needle : List Char) (files : List File) : SyncState :=
  files.foldl (sync_dispatch_search needle) ⟨[], [], none⟩

/-- The method `DirDispatcherCRTP::operator()` of a `DirDispatcherAsync` on the
entries of a traversal: an entry is dispatched when `file_can_be_searched` says
so, and the process exits when that query throws. -/
def DirDispatcherAsync.call (fs : FileSystem) (needle : List Char) (entries : List File)
    (st : AsyncState) : AsyncState :=
  conclude_search needle (entries.foldl (fun st f =>
    if st.stop.isSome then st
    else
      match file_can_be_searched fs f.path with
      | .error text => { st with cerr := st.cerr ++ text, stop := some (Stop.exited (-1)) }
      | .ok true => dispatch_search needle st f
      | .ok false => st) st)

/-- The whole output a scan of the file puts on `std::cout`, directly or
through its private stream. -/
def block (needle : List Char) (f : File) : List Char :=
  match m_file_searcher needle f with
  | some w => w.cout ++ w.out
  | none => []

/-- The file is handed to a deferred task rather than scanned inline. -/
def is_task (f : File) : Bool := decide (f.bytes.length > MIN_BUF_LEN_FOR_ASYNC)

/-! ## The specification's own wording, for comparison with the code -/

/-- The window size in the words of the specification: the size of the source
clamped to `[W_min, W_max]`, with `W_min = 2 * affix_len + pattern_len + 2`. -/
def spec_window_len (source_size pattern_len : Nat) : Nat :=
  max (2 * AFIX_LEN + pattern_len + 2) (min source_size BUF_LEN_MAX)

/-- The trimming in the words of the specification: one leading quotation mark
is removed when the string begins with one, one trailing quotation mark when it
ends with one, and every other character is kept in order. -/
def spec_trim (s : List Char) : List Char :=
  let lead := if s.head? = some '"' then 1 else 0
  let trail := if s.getLast? = some '"' then 1 else 0
  (s.drop lead).take (s.length - lead - trail)

/-- The state at the start of the inner scan of pass `k + 1`: the state after
`k` passes, refilled. -/
def scan_window (needle src : List Char) (k : Nat) : ScanState :=
  refill src (buff_len_of src.length) (scan_after needle src k)

/-- The buffer indices the prefix loop reads for a hit at index `p`. -/
def read_before (p : Nat) : List Nat :=
  ((List.range' 1 AFIX_LEN).reverse.filter fun i => decide (i ≤ p)).map fun i => p - i

/-- The buffer indices the suffix loop reads for a hit at index `p`. -/
def read_after (needle : List Char) (window_len p : Nat) : List Nat :=
  ((List.range AFIX_LEN).filter fun i => decide (p + needle.length + i < window_len)).map
    fun i => p + needle.length + i

/-- The bound on pending tasks: the two vectors have the same length, at most
`m_threads_num`, and less than that while the run goes on. -/
structure BatchInv (k : Nat) (st : AsyncState) : Prop where
  bound : st.m_threads_num = k
  same : st.m_futures.length = st.m_ostreams.length
  le : st.m_futures.length ≤ k
  lt : st.stop = none → st.m_futures.length < k

/-- Where a run of the concurrent dispatcher stands after the files `pre`: the
run goes on, every private stream is still empty, every pending file is a task
whose scan returns, and `std::cout` holds the blocks of a list `d` of files
that, with the pending ones, keeps the tasks of `pre` in their order and the
inline files of `pre` in theirs. -/
structure OrderInv (needle : List Char) (k : Nat) (pre : List File) (st : AsyncState) :
    Prop where
  run : st.stop = none
  bound : st.m_threads_num = k
  streams : st.m_ostreams = List.replicate st.m_futures.length []
  tasks : ∀ f ∈ st.m_futures, is_task f = true ∧ (m_file_searcher needle f).isSome = true
  done : ∃ d : List File, st.cout = (d.map (block needle)).flatten ∧
    d.filter is_task ++ st.m_futures = pre.filter is_task ∧
    d.filter (fun f => !is_task f) = pre.filter (fun f => !is_task f)

/-- The pattern occurs at offset `q` of the source. -/
def Occ (src needle : List Char) (q : Nat) : Prop :=
  q + needle.length ≤ src.length ∧ (src.drop q).take needle.length = needle

/-- Completeness during the inner scan: every occurrence below the absolute
scan cursor has been written; the cursor is the start of the file, the start
of a later window, or one past a written offset; and a window read with the
stream left good is full, with the last `AFIX_LEN` bytes held back. -/
structure CompMid (src needle : List Char) (B : Nat) (s : ScanState) : Prop where
  cov : ∀ q, Occ src needle q → q < s.window_pos_in_file + s.hay_start_pos →
    q ∈ s.out.map Match.offset
  cur : (s.hay_start_pos = 0 ∧ s.window_pos_in_file = 0) ∨
    (s.hay_start_pos = 3 ∧ B ≤ s.window_pos_in_file + needle.length + 5 ∧
      needle.length + 5 ≤ s.window_len) ∨
    (1 ≤ s.hay_start_pos ∧
      s.window_pos_in_file + s.hay_start_pos - 1 ∈ s.out.map Match.offset)
  full : s.in_good = true → s.hay_len + 3 = s.window_len ∧ s.window_len = B

/-- Completeness at the head of the outer loop: while the stream is good every
occurrence below the cursor of the window to come has been written; once it
is not, the facts of `CompMid` hold for the last window, and every occurrence
has been written when the whole window has been searched. -/
structure CompHead (src needle : List Char) (B : Nat) (s : ScanState) : Prop where
  good : s.in_good = true →
    (s.padding = 0 ∨ s.window_len = B) ∧
    ∀ q, Occ src needle q → q < s.in_pos - s.padding + s.hay_start_pos →
      q ∈ s.out.map Match.offset
  bad : s.in_good = false →
    (∀ q, Occ src needle q → q < s.window_pos_in_file + s.hay_start_pos →
      q ∈ s.out.map Match.offset) ∧
    ((s.hay_start_pos = 0 ∧ s.window_pos_in_file = 0) ∨
      (s.hay_start_pos = 3 ∧ B ≤ s.window_pos_in_file + needle.length + 5 ∧
        needle.length + 5 ≤ s.window_len) ∨
      (1 ≤ s.hay_start_pos ∧
        s.window_pos_in_file + s.hay_start_pos - 1 ∈ s.out.map Match.offset)) ∧
    (s.hay_len = s.window_len → ∀ q, Occ src needle q → q ∈ s.out.map Match.offset)

/-! ## Lemmas on the scan -/

theorem boyer_moore_spec (needle buffer : List Char) (first last : Nat)
    (h : boyer_moore needle buffer first last ≠ last) :
    first ≤ boyer_moore needle buffer first last ∧
    boyer_moore needle buffer first last + needle.length ≤ last ∧
    (buffer.drop (boyer_moore needle buffer first last)).take needle.length = needle := by
  unfold boyer_moore at h ⊢
  cases hf : (List.range' first (last + 1 - (first + needle.length))).find?
      (needle_at needle buffer) with
  | none => simp [hf] at h
  | some p =>
    have hm := List.mem_of_find?_eq_some hf
    have hp := List.find?_some hf
    rw [List.mem_range'_1] at hm
    simp only [Option.getD_some]
    refine ⟨hm.1, by omega, ?_⟩
    simpa [needle_at] using hp

theorem slice_getElem? (l : List Char) (a b i : Nat) :
    (slice l a b)[i]? = if a + i < b then l[a + i]? else none := by
  unfold slice
  rw [List.getElem?_drop, List.getElem?_take]

theorem slice_nil (l : List Char) (a b : Nat) (h : b ≤ a) : slice l a b = [] := by
  apply List.ext_getElem?
  intro i
  rw [slice_getElem?]
  simp
  omega

theorem slice_cons (l : List Char) (a b : Nat) (d : Char) (h : a < b) (hl : a < l.length) :
    slice l a b = l.getD a d :: slice l (a + 1) b := by
  apply List.ext_getElem?
  intro i
  cases i with
  | zero =>
    simp [slice_getElem?, h, List.getElem?_eq_getElem hl]
  | succ j =>
    simp only [List.getElem?_cons_succ, slice_getElem?]
    have : a + (j + 1) = a + 1 + j := by omega
    rw [this]

theorem escaped_nil : escaped [] = [] := rfl

theorem escaped_cons (c : Char) (l : List Char) : escaped (c :: l) = print_char c ++ escaped l := rfl

/-- A buffer cell inside the window holds the source byte at its file offset. -/
theorem window_getD (src buffer : List Char) (pos wl : Nat)
    (hw : ∀ i, i < wl → buffer[i]? = src[pos + i]?) (i : Nat) (hi : i < wl) (d : Char) :
    buffer.getD i d = src.getD (pos + i) d := by
  simp [List.getD_eq_getElem?_getD, hw i hi]

theorem context_before_eq (src buffer : List Char) (pos wl p : Nat)
    (hw : ∀ i, i < wl → buffer[i]? = src[pos + i]?) (hs : pos + wl ≤ src.length)
    (hp : p < wl) (hc : 3 ≤ p ∨ pos = 0) :
    context_before buffer p = escaped (slice src (pos + p - AFIX_LEN) (pos + p)) := by
  have e : (List.range' 1 AFIX_LEN).reverse = [3, 2, 1] := by decide
  unfold context_before
  rw [e]
  simp only [AFIX_LEN]
  by_cases h3 : 3 ≤ p
  · have h1 := window_getD src buffer pos wl hw (p - 3) (by omega) (Char.ofNat 0)
    have h2 := window_getD src buffer pos wl hw (p - 2) (by omega) (Char.ofNat 0)
    have h4 := window_getD src buffer pos wl hw (p - 1) (by omega) (Char.ofNat 0)
    rw [slice_cons src (pos + p - 3) (pos + p) (Char.ofNat 0) (by omega) (by omega),
      slice_cons src (pos + p - 3 + 1) (pos + p) (Char.ofNat 0) (by omega) (by omega),
      slice_cons src (pos + p - 3 + 1 + 1) (pos + p) (Char.ofNat 0) (by omega) (by omega),
      slice_nil src _ _ (by omega)]
    have a1 : pos + (p - 3) = pos + p - 3 := by omega
    have a2 : pos + (p - 2) = pos + p - 3 + 1 := by omega
    have a3 : pos + (p - 1) = pos + p - 3 + 1 + 1 := by omega
    rw [a1] at h1; rw [a2] at h2; rw [a3] at h4
    simp only [List.getD_eq_getElem?_getD] at h1 h2 h4
    simp [escaped_cons, escaped_nil, h3, h1, h2, h4, show 2 ≤ p by omega, show 1 ≤ p by omega]
  · have h0 : pos = 0 := by omega
    subst h0
    have hp3 : p = 0 ∨ p = 1 ∨ p = 2 := by omega
    rcases hp3 with rfl | rfl | rfl
    · simp [slice_nil, escaped_nil]
    · have h4 := window_getD src buffer 0 wl hw 0 (by omega) (Char.ofNat 0)
      rw [slice_cons src _ _ (Char.ofNat 0) (by omega) (by omega), slice_nil src _ _ (by omega)]
      simp at h4
      simp [escaped_cons, escaped_nil, h4]
    · have h2 := window_getD src buffer 0 wl hw 0 (by omega) (Char.ofNat 0)
      have h4 := window_getD src buffer 0 wl hw 1 (by omega) (Char.ofNat 0)
      rw [slice_cons src _ _ (Char.ofNat 0) (by omega) (by omega),
        slice_cons src _ _ (Char.ofNat 0) (by omega) (by omega), slice_nil src _ _ (by omega)]
      simp at h2 h4
      simp [escaped_cons, escaped_nil, h2, h4]

theorem context_after_eq (src needle buffer : List Char) (pos wl p : Nat)
    (hw : ∀ i, i < wl → buffer[i]? = src[pos + i]?) (hs : pos + wl ≤ src.length)
    (hp : p + needle.length ≤ wl)
    (he : p + needle.length + 3 ≤ wl ∨ pos + wl = src.length) :
    context_after needle buffer wl p =
      escaped (slice src (pos + p + needle.length)
        (min src.length (pos + p + needle.length + AFIX_LEN))) := by
  have e : List.range AFIX_LEN = [0, 1, 2] := by decide
  unfold context_after
  rw [e]
  simp only [AFIX_LEN]
  generalize hq : p + needle.length = q at *
  have hq2 : pos + p + needle.length = pos + q := by omega
  rw [hq2]
  have hk : q + 3 ≤ wl ∨ (pos + wl = src.length ∧ (wl = q ∨ wl = q + 1 ∨ wl = q + 2)) := by omega
  rcases hk with h3 | ⟨hS, h0 | h1 | h2⟩
  · have h1 := window_getD src buffer pos wl hw q (by omega) (Char.ofNat 0)
    have h2 := window_getD src buffer pos wl hw (q + 1) (by omega) (Char.ofNat 0)
    have h4 := window_getD src buffer pos wl hw (q + 2) (by omega) (Char.ofNat 0)
    have hm : min src.length (pos + q + 3) = pos + q + 3 := by omega
    rw [hm, slice_cons src (pos + q) _ (Char.ofNat 0) (by omega) (by omega),
      slice_cons src (pos + q + 1) _ (Char.ofNat 0) (by omega) (by omega),
      slice_cons src (pos + q + 1 + 1) _ (Char.ofNat 0) (by omega) (by omega),
      slice_nil src _ _ (by omega)]
    simp only [List.getD_eq_getElem?_getD] at h1 h2 h4
    simp [escaped_cons, escaped_nil, h1, h2, h4, show q + 1 < wl by omega,
      show q + 2 < wl by omega, show q < wl by omega, Nat.add_assoc]
  · have hm : min src.length (pos + q + 3) = pos + q := by omega
    rw [hm, slice_nil src _ _ (by omega)]
    simp [escaped_nil, h0]
  · have h4 := window_getD src buffer pos wl hw q (by omega) (Char.ofNat 0)
    have hm : min src.length (pos + q + 3) = pos + q + 1 := by omega
    rw [hm, slice_cons src (pos + q) _ (Char.ofNat 0) (by omega) (by omega),
      slice_nil src _ _ (by omega)]
    simp only [List.getD_eq_getElem?_getD] at h4
    simp [escaped_cons, escaped_nil, h4, h1]
  · have h1 := window_getD src buffer pos wl hw q (by omega) (Char.ofNat 0)
    have h4 := window_getD src buffer pos wl hw (q + 1) (by omega) (Char.ofNat 0)
    have hm : min src.length (pos + q + 3) = pos + q + 2 := by omega
    rw [hm, slice_cons src (pos + q) _ (Char.ofNat 0) (by omega) (by omega),
      slice_cons src (pos + q + 1) _ (Char.ofNat 0) (by omega) (by omega),
      slice_nil src _ _ (by omega)]
    simp only [List.getD_eq_getElem?_getD] at h1 h4
    simp [escaped_cons, escaped_nil, h1, h4, h2, Nat.add_assoc]

theorem window_occ (src buffer : List Char) (pos wl p n : Nat)
    (hw : ∀ i, i < wl → buffer[i]? = src[pos + i]?) (hp : p + n ≤ wl) :
    (src.drop (pos + p)).take n = (buffer.drop p).take n := by
  apply List.ext_getElem?
  intro i
  rw [List.getElem?_take, List.getElem?_take, List.getElem?_drop, List.getElem?_drop]
  split
  · rw [hw (p + i) (by omega), Nat.add_assoc]
  · rfl

theorem inner_scan_mid (src needle : List Char) (B : Nat) (fuel : Nat) :
    ∀ s, MidInv src needle B s → MidInv src needle B (inner_scan needle fuel s) := by
  induction fuel with
  | zero => intro s h; exact h
  | succ k ih =>
    intro s h
    unfold inner_scan
    split
    · rename_i hlt
      simp only
      split
      · exact h
      · rename_i hne
        obtain ⟨h1, h2, h3⟩ := boyer_moore_spec needle s.buffer s.hay_start_pos s.hay_len hne
        generalize boyer_moore needle s.buffer s.hay_start_pos s.hay_len = p at *
        have hay := h.hay_le
        have hsrc := h.win_src
        apply ih
        refine ⟨h.buf_len, h.win_le, h.win_src, h.window, h.hay_le, ?_, h.bad, ?_, ?_, ?_, ?_⟩
        · intro hg
          have := h.good hg
          simp only
          omega
        · have := h.cursor
          simp only
          omega
        · intro m hm
          simp only [List.mem_append, List.mem_singleton] at hm
          simp only
          rcases hm with hm | rfl
          · have := h.out_lt m hm
            omega
          · simp only
            omega
        · simp only
          rw [List.pairwise_append]
          refine ⟨h.out_sorted, List.pairwise_singleton _ _, ?_⟩
          intro a ha b hb
          simp only [List.mem_singleton] at hb
          subst hb
          have := h.out_lt a ha
          simp only
          omega
        · intro m hm
          simp only [List.mem_append, List.mem_singleton] at hm
          rcases hm with hm | rfl
          · exact h.out_good m hm
          · refine ⟨?_, ?_, ?_, ?_⟩
            · simp only
              omega
            · simp only
              rw [window_occ src s.buffer s.window_pos_in_file s.window_len p needle.length
                h.window (by omega)]
              exact h3
            · simp only
              exact context_before_eq src s.buffer s.window_pos_in_file s.window_len p h.window
                h.win_src (by omega) (by have := h.cursor; omega)
            · simp only
              have he : p + needle.length + 3 ≤ s.window_len ∨
                  s.window_pos_in_file + s.window_len = src.length := by
                cases hg : s.in_good with
                | true => have := h.good hg; omega
                | false => exact Or.inr (h.bad hg).1
              exact context_after_eq src needle s.buffer s.window_pos_in_file s.window_len p
                h.window h.win_src (by omega) he
    · exact h

theorem init_head (src needle : List Char) (B : Nat) : HeadInv src needle B (init_state B) := by
  refine ⟨by simp [init_state], ?_, ?_, by simp [init_state], by simp [init_state],
    by simp [init_state]⟩
  · intro _
    simp [init_state]
  · intro h
    simp [init_state] at h

theorem refill_mid (src needle : List Char) (B : Nat) (hB : needle.length + 5 ≤ B)
    (s : ScanState) (h : HeadInv src needle B s) : MidInv src needle B (refill src B s) := by
  unfold refill
  cases hg : s.in_good with
  | false =>
    obtain ⟨b1, b2, b3, b4, b5, b6⟩ := h.bad hg
    simp only [Bool.false_eq_true, ↓reduceIte]
    exact ⟨h.buf_len, b1, by simp only; omega, b4, Nat.le_refl _, by simp [hg], fun _ => ⟨b2, b3⟩, b5, b6,
      h.out_sorted, h.out_good⟩
  | true =>
    obtain ⟨g1, g2, g3, g4, g5, g6, g7⟩ := h.good hg
    simp only [↓reduceIte]
    have hlen : ((src.drop s.in_pos).take (B - s.padding)).length
        = min (B - s.padding) (src.length - s.in_pos) := by simp
    generalize hgot : (src.drop s.in_pos).take (B - s.padding) = got at *
    have hbl := h.buf_len
    refine ⟨?_, ?_, ?_, ?_, ?_, ?_, ?_, ?_, ?_, h.out_sorted, h.out_good⟩
    · simp only [List.length_append, List.length_take, List.length_drop]
      omega
    · simp only
      omega
    · simp only
      omega
    · intro i hi
      simp only at hi ⊢
      by_cases hip : i < s.padding
      · rw [List.append_assoc, List.getElem?_append_left (by simp; omega),
          List.getElem?_take_of_lt hip, g5 i hip]
        congr 1
        omega
      · rw [List.append_assoc, List.getElem?_append_right (by simp; omega),
          List.getElem?_append_left (by simp; omega), ← hgot,
          List.getElem?_take_of_lt (by simp; omega), List.getElem?_drop]
        congr 1
        simp
        omega
    · simp only [AFIX_LEN]
      split <;> omega
    · intro hg2
      simp only [decide_eq_true_eq] at hg2
      simp only [AFIX_LEN]
      split <;> omega
    · intro hg2
      simp only [decide_eq_false_iff_not] at hg2
      simp only
      omega
    · simp only
      omega
    · intro m hm
      have := g7 m hm
      simp only
      omega

theorem prepare_head (src needle : List Char) (B : Nat) (s : ScanState)
    (h : MidInv src needle B s) : HeadInv src needle B (prepare_next needle s) := by
  unfold prepare_next
  have hbl := h.buf_len
  have hwl := h.win_le
  have hws := h.win_src
  cases hg : s.in_good with
  | false =>
    simp only [Bool.false_eq_true, ↓reduceIte]
    exact ⟨h.buf_len, by simp [hg],
      fun _ => ⟨h.win_le, (h.bad hg).1, (h.bad hg).2, h.window, h.cursor, h.out_lt⟩,
      h.out_sorted, h.out_good, h.hay_le⟩
  | true =>
    obtain ⟨g1, g2, g3, g4⟩ := h.good hg
    simp only [↓reduceIte, AFIX_LEN]
    refine ⟨?_, ?_, by simp [hg], h.out_sorted, h.out_good, h.hay_le⟩
    · simp only [List.length_append, List.length_take, List.length_drop]
      omega
    · intro _
      refine ⟨by simp only; omega, by simp only; omega, g3, by simp only; omega, ?_,
        Or.inr ⟨by simp only; omega, rfl⟩, ?_⟩
      · intro i hi
        simp only at hi ⊢
        rw [List.getElem?_append_left (by simp; omega), List.getElem?_take_of_lt hi,
          List.getElem?_drop, h.window _ (by omega)]
        congr 1
        omega
      · intro m hm
        have := h.out_lt m hm
        simp only
        omega

theorem pass_head (src needle : List Char) (B : Nat) (hB : needle.length + 5 ≤ B)
    (s : ScanState) (h : HeadInv src needle B s) : HeadInv src needle B (pass src needle B s) := by
  unfold pass
  exact prepare_head src needle B _ (inner_scan_mid src needle B _ _ (refill_mid src needle B hB s h))

theorem passes_induct (src needle : List Char) (B : Nat) (P : ScanState → Prop)
    (hstep : ∀ s, P s → P (pass src needle B s)) :
    ∀ k s, P s → P (passes src needle B k s) := by
  intro k
  induction k with
  | zero => intro s h; exact h
  | succ k ih =>
    intro s h
    unfold passes
    split
    · exact ih _ (hstep s h)
    · exact h

theorem scan_loop_eq_passes (src needle : List Char) (B : Nat) :
    ∀ k s t, scan_loop src needle B k s = some t →
      t = passes src needle B k s ∧ loop_cond t = false := by
  intro k
  induction k with
  | zero =>
    intro s t h
    unfold scan_loop at h
    split at h
    · cases h
    · rename_i hc
      cases h
      exact ⟨rfl, by simpa using hc⟩
  | succ k ih =>
    intro s t h
    unfold scan_loop at h
    unfold passes
    split at h
    · rename_i hc
      rw [if_pos hc]
      exact ih _ _ h
    · rename_i hc
      cases h
      rw [if_neg hc]
      exact ⟨rfl, by simpa using hc⟩

theorem buff_len_of_ge (file_size : Nat) : BUF_LEN_MIN ≤ buff_len_of file_size := by
  unfold buff_len_of BUF_LEN_MIN BUF_LEN_MAX AFIX_LEN MAX_NEEDLE_LEN
  simp only
  split <;> split <;> omega

theorem buff_len_of_le (file_size : Nat) : buff_len_of file_size ≤ BUF_LEN_MAX := by
  unfold buff_len_of BUF_LEN_MIN BUF_LEN_MAX AFIX_LEN MAX_NEEDLE_LEN
  simp only
  split <;> split <;> omega

theorem scan_after_head (src needle : List Char) (hlen : needle.length ≤ MAX_NEEDLE_LEN)
    (k : Nat) : HeadInv src needle (buff_len_of src.length) (scan_after needle src k) := by
  have hB : needle.length + 5 ≤ buff_len_of src.length := by
    have := buff_len_of_ge src.length
    unfold BUF_LEN_MIN AFIX_LEN at this
    omega
  unfold scan_after
  exact passes_induct src needle _ _ (pass_head src needle _ hB) k _ (init_head src needle _)

theorem slice_length (l : List Char) (a b : Nat) : (slice l a b).length = min b l.length - a := by
  simp [slice]

theorem print_char_no_raw (c : Char) : '\n' ∉ print_char c ∧ '\t' ∉ print_char c := by
  unfold print_char
  split
  · rename_i h
    simp only [List.mem_singleton]
    exact ⟨fun e => h.1 e.symm, fun e => h.2 e.symm⟩
  · split <;> decide

theorem context_before_no_raw (buffer : List Char) (p : Nat) :
    '\n' ∉ context_before buffer p ∧ '\t' ∉ context_before buffer p := by
  unfold context_before
  simp only [List.mem_flatten, List.mem_map, not_exists, not_and]
  constructor
  · rintro l ⟨i, -, rfl⟩
    split
    · exact (print_char_no_raw _).1
    · simp
  · rintro l ⟨i, -, rfl⟩
    split
    · exact (print_char_no_raw _).2
    · simp

theorem context_after_no_raw (needle buffer : List Char) (window_len p : Nat) :
    '\n' ∉ context_after needle buffer window_len p ∧
    '\t' ∉ context_after needle buffer window_len p := by
  unfold context_after
  simp only [List.mem_flatten, List.mem_map, not_exists, not_and]
  constructor
  · rintro l ⟨i, -, rfl⟩
    split
    · exact (print_char_no_raw _).1
    · simp
  · rintro l ⟨i, -, rfl⟩
    split
    · exact (print_char_no_raw _).2
    · simp

theorem inner_scan_no_raw (needle : List Char) (fuel : Nat) :
    ∀ s, (∀ m ∈ s.out, NoRaw m) → ∀ m ∈ (inner_scan needle fuel s).out, NoRaw m := by
  induction fuel with
  | zero => intro s h; exact h
  | succ k ih =>
    intro s h
    unfold inner_scan
    split
    · simp only
      split
      · exact h
      · apply ih
        intro m hm
        simp only [List.mem_append, List.mem_singleton] at hm
        rcases hm with hm | rfl
        · exact h m hm
        · exact ⟨(context_before_no_raw _ _).1, (context_before_no_raw _ _).2,
            (context_after_no_raw _ _ _ _).1, (context_after_no_raw _ _ _ _).2⟩
    · exact h

theorem pass_no_raw (src needle : List Char) (B : Nat) (s : ScanState)
    (h : ∀ m ∈ s.out, NoRaw m) : ∀ m ∈ (pass src needle B s).out, NoRaw m := by
  have h1 : ∀ m ∈ (refill src B s).out, NoRaw m := by
    unfold refill
    split <;> exact h
  have h2 := inner_scan_no_raw needle (refill src B s).hay_len _ h1
  unfold pass prepare_next
  simp only
  split <;> exact h2

/-- C3: for a pattern of at most 128 bytes, every offset written by the scan,
after any number of passes of its loop, is the absolute offset of a real
occurrence: the occurrence lies inside the source and the source bytes there
are the pattern. -/
theorem reported_offsets_are_occurrences (src needle : List Char)
    (hlen : needle.length ≤ MAX_NEEDLE_LEN) (k : Nat) :
    ∀ m ∈ (scan_after needle src k).out,
      m.offset + needle.length ≤ src.length ∧
      (src.drop m.offset).take needle.length = needle := by
  intro m hm
  have h := (scan_after_head src needle hlen k).out_good m hm
  exact ⟨h.inside, h.occ⟩

theorem reported_offsets_are_occurrences_witness :
    ['a', 'b', 'c'].length ≤ MAX_NEEDLE_LEN ∧
    (⟨7, ['c', 'x', 'x'], ['x', 'x']⟩ : Match) ∈
      (scan_after ['a', 'b', 'c'] "xxabcxxabcxx".toList 2).out ∧
    7 + ['a', 'b', 'c'].length ≤ "xxabcxxabcxx".toList.length ∧
    ("xxabcxxabcxx".toList.drop 7).take ['a', 'b', 'c'].length = ['a', 'b', 'c'] :=
  ⟨by decide, by decide,
    reported_offsets_are_occurrences "xxabcxxabcxx".toList ['a', 'b', 'c'] (by decide) 2
      ⟨7, ['c', 'x', 'x'], ['x', 'x']⟩ (by decide)⟩

/-- C4: for a pattern of at most 128 bytes, the offsets of the match lines
written by one scan, after any number of passes, are strictly increasing, so
no offset is written twice. -/
theorem offsets_strictly_increasing (src needle : List Char)
    (hlen : needle.length ≤ MAX_NEEDLE_LEN) (k : Nat) :
    ((scan_after needle src k).out.map Match.offset).Pairwise (fun a b => a < b) ∧
    ((scan_after needle src k).out.map Match.offset).Nodup := by
  have h := (scan_after_head src needle hlen k).out_sorted
  have h2 : ((scan_after needle src k).out.map Match.offset).Pairwise (fun a b => a < b) := by
    rw [List.pairwise_map]
    exact h
  exact ⟨h2, h2.imp (fun hab => Nat.ne_of_lt hab)⟩

theorem offsets_strictly_increasing_witness :
    ['a', 'b', 'c'].length ≤ MAX_NEEDLE_LEN ∧
    ((scan_after ['a', 'b', 'c'] "xxabcxxabcxx".toList 2).out.map Match.offset).Pairwise
      (fun a b => a < b) ∧
    ((scan_after ['a', 'b', 'c'] "xxabcxxabcxx".toList 2).out.map Match.offset).Nodup :=
  ⟨by decide, offsets_strictly_increasing "xxabcxxabcxx".toList ['a', 'b', 'c'] (by decide) 2⟩

/-- C5: for a pattern of at most 128 bytes, every match line written for an
offset `o` has as its printed prefix the escaped source bytes `[o - 3, o)`
(from 0 when `o < 3`) and as its printed suffix the escaped source bytes
`[o + n, min(S, o + n + 3))`; these byte ranges have `min(3, o)` and
`min(3, S - (o + n))` bytes, so exactly 3 away from the two ends of the source
and fewer, never more, only at an end. -/
theorem contexts_are_source_bytes (src needle : List Char)
    (hlen : needle.length ≤ MAX_NEEDLE_LEN) (k : Nat) :
    ∀ m ∈ (scan_after needle src k).out,
      m.pre = escaped (slice src (m.offset - AFIX_LEN) m.offset) ∧
      m.suf = escaped (slice src (m.offset + needle.length)
        (min src.length (m.offset + needle.length + AFIX_LEN))) ∧
      (slice src (m.offset - AFIX_LEN) m.offset).length = min AFIX_LEN m.offset ∧
      (slice src (m.offset + needle.length)
        (min src.length (m.offset + needle.length + AFIX_LEN))).length
        = min AFIX_LEN (src.length - (m.offset + needle.length)) := by
  intro m hm
  have h := (scan_after_head src needle hlen k).out_good m hm
  have hi := h.inside
  refine ⟨h.pre_eq, h.suf_eq, ?_, ?_⟩
  · rw [slice_length]
    omega
  · rw [slice_length]
    omega

theorem contexts_are_source_bytes_witness :
    ['a', 'b', 'c'].length ≤ MAX_NEEDLE_LEN ∧
    (⟨7, ['c', 'x', 'x'], ['x', 'x']⟩ : Match) ∈
      (scan_after ['a', 'b', 'c'] "xxabcxxabcxx".toList 2).out ∧
    ['c', 'x', 'x'] = escaped (slice "xxabcxxabcxx".toList (7 - AFIX_LEN) 7) ∧
    ['x', 'x'] = escaped (slice "xxabcxxabcxx".toList (7 + ['a', 'b', 'c'].length)
      (min "xxabcxxabcxx".toList.length (7 + ['a', 'b', 'c'].length + AFIX_LEN))) ∧
    (slice "xxabcxxabcxx".toList (7 - AFIX_LEN) 7).length = min AFIX_LEN 7 ∧
    (slice "xxabcxxabcxx".toList (7 + ['a', 'b', 'c'].length)
      (min "xxabcxxabcxx".toList.length (7 + ['a', 'b', 'c'].length + AFIX_LEN))).length
      = min AFIX_LEN ("xxabcxxabcxx".toList.length - (7 + ['a', 'b', 'c'].length)) :=
  ⟨by decide, by decide,
    contexts_are_source_bytes "xxabcxxabcxx".toList ['a', 'b', 'c'] (by decide) 2
      ⟨7, ['c', 'x', 'x'], ['x', 'x']⟩ (by decide)⟩

/-- C9: `print_char` writes backslash, `n` for a newline, backslash, `t` for a
tab and the byte itself for every other byte; hence the prefix and the suffix
of every match line the scan writes, for any source, pattern and number of
passes, hold no raw newline and no raw tab. -/
theorem contexts_are_escaped :
    (∀ c : Char, print_char c =
      if c = '\n' then ['\\', 'n'] else if c = '\t' then ['\\', 't'] else [c]) ∧
    ∀ (src needle : List Char) (k : Nat), ∀ m ∈ (scan_after needle src k).out,
      '\n' ∉ m.pre ∧ '\t' ∉ m.pre ∧ '\n' ∉ m.suf ∧ '\t' ∉ m.suf := by
  constructor
  · intro c
    unfold print_char
    by_cases h1 : c = '\n'
    · subst h1; decide
    · by_cases h2 : c = '\t'
      · subst h2; decide
      · simp [h1, h2]
  · intro src needle k m hm
    have h : ∀ m ∈ (scan_after needle src k).out, NoRaw m := by
      unfold scan_after
      exact passes_induct src needle _ (fun s => ∀ m ∈ s.out, NoRaw m)
        (pass_no_raw src needle _) k _ (by simp [init_state])
    exact ⟨(h m hm).pre_nl, (h m hm).pre_tab, (h m hm).suf_nl, (h m hm).suf_tab⟩

/-- C1 (failing input): on a source whose bytes are the pattern `abc` itself
the scan leaves its loop having written no line, although the pattern occurs
at offset 0. -/
theorem source_equal_to_pattern_is_missed :
    (['a', 'b', 'c'].drop 0).take 3 = ['a', 'b', 'c'] ∧
    (scan_loop ['a', 'b', 'c'] ['a', 'b', 'c'] (buff_len_of 3) 2
      (init_state (buff_len_of 3))).map ScanState.out = some [] ∧
    FileSearcher.call ['a', 'b', 'c'] ['f'] (some ['a', 'b', 'c']) 2 = some ⟨[], []⟩ := by
  decide

/-- C2 (failing input): for pattern `aa` over source `aaaa` the scan leaves its
loop having written the offsets 0 and 1 only; offset 2, the occurrence that ends
at the end of the source, is not written. -/
theorem overlapping_match_at_end_is_missed :
    (scan_loop ['a', 'a', 'a', 'a'] ['a', 'a'] (buff_len_of 4) 2
      (init_state (buff_len_of 4))).map (fun s => s.out.map Match.offset) = some [0, 1] := by
  decide

/-- C6: scanning the source `xxabcxxabcxx` for the pattern `abc` in a file named
`f` leaves the loop after two passes having written exactly the two lines
`f(2):xx...xxa` and `f(7):cxx...xx`, in this order. -/
theorem end_to_end_example :
    FileSearcher.call "abc".toList "f".toList (some "xxabcxxabcxx".toList) 2
      = some ⟨"f(2):xx...xxa\nf(7):cxx...xx\n".toList, []⟩ ∧
    (scan_loop "xxabcxxabcxx".toList "abc".toList (buff_len_of 12) 2
      (init_state (buff_len_of 12))).map ScanState.out
      = some [⟨2, "xx".toList, "xxa".toList⟩, ⟨7, "cxx".toList, "xx".toList⟩] := by
  decide

set_option maxRecDepth 100000 in
/-- C7 (failing input): on a source of 133 bytes `a` and the pattern `a`, the
scan loop run with buffer length 133 writes the offsets 0..128, 130, 131, and
run with buffer length 134 it writes the offsets 0..131: the two sequences of
match lines differ. -/
theorem window_size_changes_the_matches :
    BUF_LEN_MIN ≤ 133 ∧ BUF_LEN_MIN ≤ 134 ∧
    (scan_loop (List.replicate 133 'a') ['a'] 133 3 (init_state 133)).map
      (fun s => s.out.map Match.offset) = some (List.range 129 ++ [130, 131]) ∧
    (scan_loop (List.replicate 133 'a') ['a'] 134 3 (init_state 134)).map
      (fun s => s.out.map Match.offset) = some (List.range 132) := by
  refine ⟨by decide, by decide, ?_, ?_⟩
  · rfl
  · rfl

set_option maxRecDepth 100000 in
theorem stuck_state_loops :
    loop_cond (pass (List.replicate 133 'a') (List.replicate 128 'a') 133 (init_state 133)) = true ∧
    pass (List.replicate 133 'a') (List.replicate 128 'a') 133
      (pass (List.replicate 133 'a') (List.replicate 128 'a') 133 (init_state 133))
      = pass (List.replicate 133 'a') (List.replicate 128 'a') 133 (init_state 133) := by
  constructor
  · rfl
  · rfl

theorem stuck_state_never_exits (k : Nat) :
    scan_loop (List.replicate 133 'a') (List.replicate 128 'a') 133 k
      (pass (List.replicate 133 'a') (List.replicate 128 'a') 133 (init_state 133)) = none := by
  induction k with
  | zero =>
    unfold scan_loop
    rw [if_pos stuck_state_loops.1]
  | succ k ih =>
    unfold scan_loop
    rw [if_pos stuck_state_loops.1, stuck_state_loops.2]
    exact ih

/-- C8 (failing input): on a file of 133 bytes and a pattern of 128 bytes the
buffer length is 133, the padding is 133, every read after the first asks for 0
bytes and leaves the stream good: whatever the number of passes allowed, the
outer loop has not been left. -/
theorem loop_never_exits (fuel : Nat) :
    buff_len_of (List.replicate 133 'a').length = 133 ∧
    scan_loop (List.replicate 133 'a') (List.replicate 128 'a') 133 fuel (init_state 133) = none ∧
    FileSearcher.call (List.replicate 128 'a') ['f'] (some (List.replicate 133 'a')) fuel = none := by
  have hB : buff_len_of (List.replicate 133 'a').length = 133 := by
    rw [List.length_replicate]
    decide
  have h : scan_loop (List.replicate 133 'a') (List.replicate 128 'a') 133 fuel (init_state 133)
      = none := by
    cases fuel with
    | zero => rfl
    | succ k =>
      unfold scan_loop
      rw [if_pos (by rfl)]
      exact stuck_state_never_exits k
  refine ⟨hB, h, ?_⟩
  unfold FileSearcher.call
  simp only [hB, h, Option.map_none']

/-- The configuration errors `main` ends with `return -1`: a wrong number of
arguments, an empty target or pattern, a pattern longer than 128.  No search is
started and something is written to `std::cerr`. -/
theorem main_rejects_bad_arguments (argv : List (List Char)) (fs : FileSystem)
    (h : argv.length ≠ 3 ∨ argv.getD 1 [] = [] ∨ argv.getD 2 [] = [] ∨
      MAX_NEEDLE_LEN < (argv.getD 2 []).length) :
    (main argv fs).status = -1 ∧ (main argv fs).search = Search.none ∧
    (main argv fs).cerr ≠ [] := by
  unfold main
  simp only
  by_cases h1 : argv.length ≠ 3
  · rw [if_pos h1]
    exact ⟨rfl, rfl, by simp⟩
  · rw [if_neg h1]
    by_cases h2 : argv.getD 1 [] = [] ∨ argv.getD 2 [] = []
    · rw [if_pos h2]
      exact ⟨rfl, rfl, by simp⟩
    · rw [if_neg h2]
      have h3 : (argv.getD 2 []).length > MAX_NEEDLE_LEN := by
        rcases h with h | h | h | h
        · exact absurd h h1
        · exact absurd (Or.inl h) h2
        · exact absurd (Or.inr h) h2
        · exact h
      rw [if_pos h3]
      exact ⟨rfl, rfl, by simp⟩

/-- C10 (failing input): with two well-formed arguments and a target that does
not exist, `main` writes `File not found` and the usage, starts no search, and
returns 0. -/
theorem main_missing_target_returns_zero (argv0 target needle : List Char) (fs : FileSystem)
    (ht : target ≠ []) (hn : needle ≠ []) (hl : needle.length ≤ MAX_NEEDLE_LEN)
    (he : fs.path_exists target = .ok false) :
    main [argv0, target, needle] fs =
      ⟨0, "File not found: ".toList ++ trim_quotation_marks target ++ ['\n'] ++
        print_usage fs argv0, Search.none⟩ := by
  unfold main
  simp [ht, hn, Nat.not_lt.mpr hl, he]

theorem main_missing_target_returns_zero_witness :
    "missing".toList ≠ [] ∧ "abc".toList ≠ [] ∧ "abc".toList.length ≤ MAX_NEEDLE_LEN ∧
    (main ["searcher".toList, "missing".toList, "abc".toList]
      ⟨fun _ => .ok false, fun _ => .ok false, fun _ => .ok false, fun _ => .ok false, id⟩).status
      = 0 :=
  ⟨by decide, by decide, by decide,
    congrArg MainResult.status (main_missing_target_returns_zero "searcher".toList "missing".toList
      "abc".toList ⟨fun _ => .ok false, fun _ => .ok false, fun _ => .ok false, fun _ => .ok false, id⟩
      (by decide) (by decide) (by decide) rfl)⟩

/-- The inner loop changes the scan cursor and the output only. -/
theorem inner_scan_frame (needle : List Char) (fuel : Nat) :
    ∀ s, (inner_scan needle fuel s).in_good = s.in_good ∧
      (inner_scan needle fuel s).in_pos = s.in_pos ∧
      (inner_scan needle fuel s).buffer = s.buffer ∧
      (inner_scan needle fuel s).window_len = s.window_len ∧
      (inner_scan needle fuel s).hay_len = s.hay_len ∧
      (inner_scan needle fuel s).window_pos_in_file = s.window_pos_in_file ∧
      (inner_scan needle fuel s).padding = s.padding := by
  induction fuel with
  | zero => intro s; exact ⟨rfl, rfl, rfl, rfl, rfl, rfl, rfl⟩
  | succ k ih =>
    intro s
    unfold inner_scan
    split
    · simp only
      split
      · exact ⟨rfl, rfl, rfl, rfl, rfl, rfl, rfl⟩
      · exact ih _
    · exact ⟨rfl, rfl, rfl, rfl, rfl, rfl, rfl⟩

/-- The bound of `hay_len` rounds is never what stops the inner loop: it ends
with its guard false or with a search that found nothing. -/
theorem inner_scan_done (needle : List Char) (fuel : Nat) :
    ∀ s, s.hay_len ≤ fuel + s.hay_start_pos →
      ¬ ((inner_scan needle fuel s).hay_start_pos + needle.length < s.hay_len) ∨
      boyer_moore needle s.buffer (inner_scan needle fuel s).hay_start_pos s.hay_len
        = s.hay_len := by
  induction fuel with
  | zero =>
    intro s h
    left
    simp only [inner_scan]
    omega
  | succ k ih =>
    intro s h
    unfold inner_scan
    split
    · simp only
      split
      · rename_i he
        exact Or.inr he
      · rename_i hne
        have hs := boyer_moore_spec needle s.buffer s.hay_start_pos s.hay_len hne
        exact ih _ (by simp only; omega)
    · rename_i hg
      exact Or.inl hg

theorem pass_passes_left (src needle : List Char) (B : Nat) (hB : needle.length + 5 ≤ B)
    (hW : needle.length + 5 < B ∨ src.length < B)
    (s : ScanState) (h : HeadInv src needle B s) (hc : loop_cond s = true) :
    passes_left src (pass src needle B s) < passes_left src s := by
  have hf := inner_scan_frame needle (refill src B s).hay_len (refill src B s)
  have e1 : (pass src needle B s).in_good = (refill src B s).in_good := by
    unfold pass prepare_next
    simp only
    split <;> simp [hf.1]
  have e2 : (pass src needle B s).in_pos = (refill src B s).in_pos := by
    unfold pass prepare_next
    simp only
    split <;> simp [hf.2.1]
  have e3 : (pass src needle B s).window_len = (refill src B s).window_len := by
    unfold pass prepare_next
    simp only
    split <;> simp [hf.2.2.2.1]
  have e4 : (pass src needle B s).hay_len = (refill src B s).hay_len := by
    unfold pass prepare_next
    simp only
    split <;> simp [hf.2.2.2.2.1]
  unfold passes_left
  rw [e1, e2, e3, e4]
  unfold loop_cond at hc
  cases hg : s.in_good with
  | false =>
    have hlt : s.hay_len < s.window_len := by simpa [hg] using hc
    simp [refill, hg, hlt]
  | true =>
    obtain ⟨g1, g2, g3, g4, g5, g6, g7⟩ := h.good hg
    have hlen : ((src.drop s.in_pos).take (B - s.padding)).length
        = min (B - s.padding) (src.length - s.in_pos) := by simp
    simp only [refill, hg, ↓reduceIte, decide_eq_true_eq]
    generalize (src.drop s.in_pos).take (B - s.padding) = got at *
    split
    · omega
    · repeat' split
      all_goals omega

theorem scan_loop_terminates (src needle : List Char) (B : Nat) (hB : needle.length + 5 ≤ B)
    (hW : needle.length + 5 < B ∨ src.length < B) :
    ∀ k s, HeadInv src needle B s → passes_left src s ≤ k →
      ∃ t, scan_loop src needle B k s = some t := by
  intro k
  induction k with
  | zero =>
    intro s h hk
    unfold scan_loop
    have : loop_cond s = false := by
      unfold passes_left at hk
      unfold loop_cond
      cases hg : s.in_good with
      | true => simp [hg] at hk
      | false =>
        simp only [hg, Bool.false_eq_true, ↓reduceIte] at hk
        split at hk
        · omega
        · rename_i hn
          simpa using hn
    simp [this]
  | succ k ih =>
    intro s h hk
    unfold scan_loop
    by_cases hc : loop_cond s = true
    · rw [if_pos hc]
      have := pass_passes_left src needle B hB hW s h hc
      exact ih _ (pass_head src needle B hB s h) (by omega)
    · rw [if_neg hc]
      exact ⟨s, rfl⟩

/-- Termination everywhere but at the one stuck input: for a pattern of at most
128 bytes, unless the pattern has 128 bytes and the source 133, the loop is left
within `S + 2` passes, after a pass with `hay_len = window_len` and with all `S`
source bytes read. -/
theorem scan_terminates (src needle : List Char) (hlen : needle.length ≤ MAX_NEEDLE_LEN)
    (hne : ¬ (needle.length = 128 ∧ src.length = 133)) :
    ∃ t, scan_loop src needle (buff_len_of src.length) (src.length + 2)
        (init_state (buff_len_of src.length)) = some t ∧
      t = scan_after needle src (src.length + 2) ∧
      t.in_good = false ∧ t.hay_len = t.window_len ∧ t.in_pos = src.length := by
  have hge := buff_len_of_ge src.length
  have hB : needle.length + 5 ≤ buff_len_of src.length := by
    unfold BUF_LEN_MIN AFIX_LEN at hge
    omega
  have hW : needle.length + 5 < buff_len_of src.length ∨ src.length < buff_len_of src.length := by
    unfold MAX_NEEDLE_LEN at hlen
    unfold buff_len_of BUF_LEN_MIN BUF_LEN_MAX AFIX_LEN MAX_NEEDLE_LEN
    simp only
    split <;> split <;> omega
  obtain ⟨t, ht⟩ := scan_loop_terminates src needle _ hB hW (src.length + 2) _
    (init_head src needle _) (by simp [passes_left, init_state])
  obtain ⟨h1, h2⟩ := scan_loop_eq_passes src needle _ _ _ _ ht
  have hh := scan_after_head src needle hlen (src.length + 2)
  have h1' : t = scan_after needle src (src.length + 2) := h1
  rw [← h1'] at hh
  unfold loop_cond at h2
  have hg : t.in_good = false := by
    cases hg : t.in_good with
    | true => simp [hg] at h2
    | false => rfl
  have hl : ¬ t.hay_len < t.window_len := by simpa [hg] using h2
  have := hh.hay_le
  exact ⟨t, ht, h1', hg, by omega, (hh.bad hg).2.2.1⟩

/-- C13 (counterexample): for an empty source and a pattern of 3 bytes the
specification's window is `2 * 3 + 3 + 2 = 11` bytes, the code's is 133; for a
pattern of 128 bytes the specification's lower bound is 136, the code's 133. -/
theorem window_len_differs_from_spec :
    spec_window_len 0 3 = 11 ∧ buff_len_of 0 = 133 ∧
    spec_window_len 0 128 = 136 ∧ buff_len_of 0 ≠ spec_window_len 0 3 := by
  decide

/-- C13 (amended): the buffer length of a scan is the size of the source
clamped to `[BUF_LEN_MIN, BUF_LEN_MAX]`; both bounds are constants of the
program (they do not depend on the pattern), `BUF_LEN_MAX` is 512000, and the
two static assertions of `constants.h` hold. -/
theorem window_len_is_clamped (file_size : Nat) :
    buff_len_of file_size = max BUF_LEN_MIN (min file_size BUF_LEN_MAX) ∧
    BUF_LEN_MIN ≤ buff_len_of file_size ∧ buff_len_of file_size ≤ BUF_LEN_MAX ∧
    BUF_LEN_MAX = 512000 ∧ BUF_LEN_MIN ≤ BUF_LEN_MAX ∧ 2 * AFIX_LEN < BUF_LEN_MIN := by
  refine ⟨?_, buff_len_of_ge _, buff_len_of_le _, by decide, by decide, by decide⟩
  unfold buff_len_of BUF_LEN_MIN BUF_LEN_MAX AFIX_LEN MAX_NEEDLE_LEN
  simp only
  split <;> split <;> omega

/-- C18: `trim_quotation_marks` removes one leading quotation mark when the
string begins with one and one trailing quotation mark when it ends with one,
keeping every other character in order: a name without a quotation mark at
either end is unchanged, `"name"` in quotation marks becomes `name`, and the
string made of one quotation mark becomes empty. -/
theorem trim_quotation_marks_spec :
    (∀ s : List Char, trim_quotation_marks s = spec_trim s) ∧
    (∀ s : List Char, s.head? ≠ some '"' → s.getLast? ≠ some '"' → trim_quotation_marks s = s) ∧
    trim_quotation_marks "\"name\"".toList = "name".toList ∧
    trim_quotation_marks ['"'] = [] := by
  have key : ∀ s : List Char, trim_quotation_marks s = spec_trim s := by
    intro s
    unfold trim_quotation_marks spec_trim
    match s with
    | [] => simp
    | [c] =>
      by_cases h : c = '"'
      · subst h; decide
      · simp [h]
    | c :: d :: r =>
      have hlast : (c :: d :: r).getLast? = (d :: r).getLast? := List.getLast?_cons_cons
      have hdl : (c :: d :: r).dropLast = c :: (d :: r).dropLast := rfl
      have hdl2 : (d :: r).dropLast = (d :: r).take r.length := by
        rw [List.dropLast_eq_take]; rfl
      by_cases hq : (d :: r).getLast? = some '"'
      · by_cases hc : c = '"'
        · simp [hlast, hq, hc, hdl, hdl2]
        · simp [hlast, hq, hc, hdl, hdl2]
      · by_cases hc : c = '"'
        · simp [hlast, hq, hc]
        · simp [hlast, hq, hc]
  refine ⟨key, ?_, by decide, by decide⟩
  intro s h1 h2
  rw [key]
  unfold spec_trim
  simp [h1, h2]

theorem passes_stop (src needle : List Char) (B : Nat) :
    ∀ k s, loop_cond s = false → passes src needle B k s = s := by
  intro k
  cases k with
  | zero => intro s _; rfl
  | succ k =>
    intro s h
    unfold passes
    simp [h]

theorem passes_succ (src needle : List Char) (B : Nat) :
    ∀ k s, passes src needle B (k + 1) s =
      if loop_cond (passes src needle B k s) then pass src needle B (passes src needle B k s)
      else passes src needle B k s := by
  intro k
  induction k with
  | zero =>
    intro s
    simp [passes]
  | succ k ih =>
    intro s
    by_cases hc : loop_cond s = true
    · have e1 : passes src needle B (k + 1 + 1) s
          = passes src needle B (k + 1) (pass src needle B s) := by
        conv_lhs => unfold passes
        rw [if_pos hc]
      have e2 : passes src needle B (k + 1) s = passes src needle B k (pass src needle B s) := by
        conv_lhs => unfold passes
        rw [if_pos hc]
      rw [e1, e2]
      exact ih _
    · have hc' : loop_cond s = false := by simpa using hc
      rw [passes_stop src needle B _ s hc', passes_stop src needle B _ s hc']
      simp [hc']

theorem scan_after_succ (needle src : List Char) (k : Nat) :
    scan_after needle src (k + 1) =
      if loop_cond (scan_after needle src k) then
        pass src needle (buff_len_of src.length) (scan_after needle src k)
      else scan_after needle src k := by
  unfold scan_after
  exact passes_succ src needle _ k _

theorem scan_window_mid (src needle : List Char) (hlen : needle.length ≤ MAX_NEEDLE_LEN)
    (k : Nat) : MidInv src needle (buff_len_of src.length) (scan_window needle src k) := by
  have hB : needle.length + 5 ≤ buff_len_of src.length := by
    have := buff_len_of_ge src.length
    unfold BUF_LEN_MIN AFIX_LEN MAX_NEEDLE_LEN at this
    unfold MAX_NEEDLE_LEN at hlen
    omega
  exact refill_mid src needle _ hB _ (scan_after_head src needle hlen k)

theorem window_take_eq_slice (src buffer : List Char) (pos wl : Nat)
    (hw : ∀ i, i < wl → buffer[i]? = src[pos + i]?) :
    buffer.take wl = slice src pos (pos + wl) := by
  apply List.ext_getElem?
  intro i
  rw [slice_getElem?, List.getElem?_take]
  by_cases h : i < wl
  · rw [if_pos h, if_pos (by omega), hw i h]
  · rw [if_neg h, if_neg (by omega)]

/-- C14: for a pattern of at most 128 bytes, at the start of the inner scan of
every pass the valid bytes of the buffer are the source bytes
`[window_pos_in_file, window_pos_in_file + window_len)`; and when a pass leaves
the stream good, the next refill keeps as the first `AFIX_LEN + n + 2` bytes of
the window the last `AFIX_LEN + n + 2` bytes of the previous window, and moves
`window_pos_in_file` forward by the previous `window_len` minus that padding. -/
theorem window_carry_invariant (src needle : List Char)
    (hlen : needle.length ≤ MAX_NEEDLE_LEN) (k : Nat) :
    ((scan_window needle src k).window_pos_in_file + (scan_window needle src k).window_len
        ≤ src.length ∧
      (scan_window needle src k).buffer.take (scan_window needle src k).window_len =
        slice src (scan_window needle src k).window_pos_in_file
          ((scan_window needle src k).window_pos_in_file +
            (scan_window needle src k).window_len)) ∧
    (loop_cond (scan_after needle src k) = true →
      (scan_after needle src (k + 1)).in_good = true →
      AFIX_LEN + needle.length + 2 ≤ (scan_window needle src k).window_len ∧
      (scan_window needle src (k + 1)).window_pos_in_file =
        (scan_window needle src k).window_pos_in_file +
          ((scan_window needle src k).window_len - (AFIX_LEN + needle.length + 2)) ∧
      (scan_window needle src (k + 1)).buffer.take (AFIX_LEN + needle.length + 2) =
        ((scan_window needle src k).buffer.take (scan_window needle src k).window_len).drop
          ((scan_window needle src k).window_len - (AFIX_LEN + needle.length + 2))) := by
  have hm := scan_window_mid src needle hlen k
  refine ⟨⟨hm.win_src, window_take_eq_slice src _ _ _ hm.window⟩, ?_⟩
  intro hc hg
  have hf := inner_scan_frame needle (scan_window needle src k).hay_len (scan_window needle src k)
  have hnext : scan_after needle src (k + 1) =
      prepare_next needle
        (inner_scan needle (scan_window needle src k).hay_len (scan_window needle src k)) := by
    rw [scan_after_succ, if_pos hc]
    rfl
  generalize inner_scan needle (scan_window needle src k).hay_len (scan_window needle src k)
    = e at hf hnext
  obtain ⟨f1, f2, f3, f4, f5, f6, f7⟩ := hf
  have heg : e.in_good = true := by
    rw [hnext] at hg
    unfold prepare_next at hg
    cases h : e.in_good with
    | true => rfl
    | false => simp [h] at hg
  have hmg := hm.good (f1 ▸ heg)
  have hbl := hm.buf_len
  have hwl := hm.win_le
  have e2 : scan_window needle src (k + 1) =
      refill src (buff_len_of src.length) (prepare_next needle e) := by
    unfold scan_window
    rw [hnext]
  rw [e2]
  unfold prepare_next refill
  simp only [heg, ↓reduceIte, AFIX_LEN] at hmg ⊢
  rw [f3, f4, f6]
  generalize (scan_window needle src k).buffer = buf at *
  generalize (scan_window needle src k).window_len = wl at *
  refine ⟨by omega, rfl, ?_⟩
  rw [List.append_assoc, List.take_append_of_le_length (by simp; omega),
    List.take_take, Nat.min_self,
    List.take_append_of_le_length (by simp; omega), List.take_take, Nat.min_self,
    List.drop_take]
  congr 1
  omega

set_option maxRecDepth 100000 in
theorem window_carry_invariant_witness :
    ['a'].length ≤ MAX_NEEDLE_LEN ∧
    loop_cond (scan_after ['a'] (List.replicate 140 'x') 0) = true ∧
    (scan_after ['a'] (List.replicate 140 'x') (0 + 1)).in_good = true ∧
    AFIX_LEN + ['a'].length + 2 ≤ (scan_window ['a'] (List.replicate 140 'x') 0).window_len ∧
    (scan_window ['a'] (List.replicate 140 'x') (0 + 1)).window_pos_in_file =
      (scan_window ['a'] (List.replicate 140 'x') 0).window_pos_in_file +
        ((scan_window ['a'] (List.replicate 140 'x') 0).window_len -
          (AFIX_LEN + ['a'].length + 2)) ∧
    (scan_window ['a'] (List.replicate 140 'x') (0 + 1)).buffer.take
        (AFIX_LEN + ['a'].length + 2) =
      ((scan_window ['a'] (List.replicate 140 'x') 0).buffer.take
        (scan_window ['a'] (List.replicate 140 'x') 0).window_len).drop
        ((scan_window ['a'] (List.replicate 140 'x') 0).window_len -
          (AFIX_LEN + ['a'].length + 2)) :=
  ⟨by decide, by rfl, by rfl,
    (window_carry_invariant (List.replicate 140 'x') ['a'] (by decide) 0).2 (by rfl) (by rfl)⟩

theorem flatten_map_ite {α β : Type} (l : List α) (c : α → Bool) (f : α → List β) :
    (l.map fun i => if c i = true then f i else []).flatten = ((l.filter c).map f).flatten := by
  induction l with
  | nil => rfl
  | cons a t ih =>
    cases h : c a with
    | true => simp [List.filter, h, ih]
    | false => simp [List.filter, h, ih]

/-- The prefix loop prints the buffer cells `read_before` lists, in this order. -/
theorem context_before_reads (buffer : List Char) (p : Nat) :
    context_before buffer p =
      ((read_before p).map fun j => print_char (buffer.getD j (Char.ofNat 0))).flatten := by
  unfold context_before read_before
  rw [List.map_map]
  rw [← flatten_map_ite]
  simp

/-- The suffix loop prints the buffer cells `read_after` lists, in this order. -/
theorem context_after_reads (needle buffer : List Char) (window_len p : Nat) :
    context_after needle buffer window_len p =
      ((read_after needle window_len p).map fun j =>
        print_char (buffer.getD j (Char.ofNat 0))).flatten := by
  unfold context_after read_after
  rw [List.map_map]
  rw [← flatten_map_ite]
  simp

theorem padding_values (src needle : List Char) (k : Nat) :
    (scan_after needle src k).padding = 0 ∨
    (scan_after needle src k).padding = AFIX_LEN + needle.length + 2 := by
  unfold scan_after
  apply passes_induct src needle _
    (fun s => s.padding = 0 ∨ s.padding = AFIX_LEN + needle.length + 2)
  · intro s _
    right
    unfold pass prepare_next
    simp only
    split <;> rfl
  · left; rfl

/-- C15: for a pattern of at most 128 bytes, at every pass of the scan the
padding is at most `buff_len`, after the refill `hay_len ≤ window_len ≤
buff_len` (one cell less than the allocation), and at every round of the inner
loop: the stream is good, so that the carry copy will be made, only when
`window_len` is at least the new padding, and for a hit at `p` every buffer
index read by the prefix and suffix loops lies below `window_len`. -/
theorem buffer_bounds (src needle : List Char) (hlen : needle.length ≤ MAX_NEEDLE_LEN)
    (k : Nat) :
    (scan_after needle src k).padding ≤ buff_len_of src.length ∧
    AFIX_LEN + needle.length + 2 ≤ buff_len_of src.length ∧
    (scan_window needle src k).hay_len ≤ (scan_window needle src k).window_len ∧
    (scan_window needle src k).window_len ≤ buff_len_of src.length ∧
    (scan_window needle src k).buffer.length = buff_len_of src.length + 1 ∧
    ∀ j : Nat,
      ((inner_scan needle j (scan_window needle src k)).in_good = true →
        AFIX_LEN + needle.length + 2 ≤
          (inner_scan needle j (scan_window needle src k)).window_len) ∧
      ((inner_scan needle j (scan_window needle src k)).hay_start_pos + needle.length <
          (inner_scan needle j (scan_window needle src k)).hay_len →
        boyer_moore needle (inner_scan needle j (scan_window needle src k)).buffer
          (inner_scan needle j (scan_window needle src k)).hay_start_pos
          (inner_scan needle j (scan_window needle src k)).hay_len ≠
          (inner_scan needle j (scan_window needle src k)).hay_len →
        ∀ i ∈ read_before (boyer_moore needle
              (inner_scan needle j (scan_window needle src k)).buffer
              (inner_scan needle j (scan_window needle src k)).hay_start_pos
              (inner_scan needle j (scan_window needle src k)).hay_len) ++
            read_after needle (inner_scan needle j (scan_window needle src k)).window_len
              (boyer_moore needle (inner_scan needle j (scan_window needle src k)).buffer
                (inner_scan needle j (scan_window needle src k)).hay_start_pos
                (inner_scan needle j (scan_window needle src k)).hay_len),
          i < (inner_scan needle j (scan_window needle src k)).window_len) := by
  have hge := buff_len_of_ge src.length
  unfold BUF_LEN_MIN AFIX_LEN MAX_NEEDLE_LEN at hge
  unfold MAX_NEEDLE_LEN at hlen
  have hm := scan_window_mid src needle (by unfold MAX_NEEDLE_LEN; exact hlen) k
  refine ⟨?_, by unfold AFIX_LEN; omega, hm.hay_le, hm.win_le, hm.buf_len, ?_⟩
  · rcases padding_values src needle k with h | h
    · rw [h]; omega
    · rw [h]; unfold AFIX_LEN; omega
  · intro j
    have hj := inner_scan_mid src needle _ j _ hm
    generalize inner_scan needle j (scan_window needle src k) = s at hj
    constructor
    · intro hg
      have := hj.good hg
      unfold AFIX_LEN
      omega
    · intro hguard hne
      obtain ⟨h1, h2, -⟩ := boyer_moore_spec needle s.buffer s.hay_start_pos s.hay_len hne
      generalize boyer_moore needle s.buffer s.hay_start_pos s.hay_len = p at *
      have hay := hj.hay_le
      intro i hi
      simp only [read_before, read_after, List.mem_append, List.mem_map, List.mem_filter,
        decide_eq_true_eq] at hi
      rcases hi with ⟨a, ⟨-, ha⟩, rfl⟩ | ⟨a, ⟨-, ha⟩, rfl⟩
      · omega
      · omega

theorem buffer_bounds_witness :
    ['a', 'b', 'c'].length ≤ MAX_NEEDLE_LEN ∧
    (scan_window ['a', 'b', 'c'] "xxabcxxabcxx".toList 0).hay_len ≤
      (scan_window ['a', 'b', 'c'] "xxabcxxabcxx".toList 0).window_len ∧
    7 ∈ read_before 2 ++ read_after ['a', 'b', 'c'] 12 2 ∧
    7 < (inner_scan ['a', 'b', 'c'] 0
      (scan_window ['a', 'b', 'c'] "xxabcxxabcxx".toList 0)).window_len :=
  ⟨by decide, (buffer_bounds "xxabcxxabcxx".toList ['a', 'b', 'c'] (by decide) 0).2.2.1,
    by decide,
    ((buffer_bounds "xxabcxxabcxx".toList ['a', 'b', 'c'] (by decide) 0).2.2.2.2.2 0).2
      (by decide) (by decide) 7 (by decide)⟩

theorem foldl_invariant {σ α : Type} (P : σ → Prop) (g : σ → α → σ)
    (hstep : ∀ s a, P s → P (g s a)) : ∀ (l : List α) (s : σ), P s → P (l.foldl g s) := by
  intro l
  induction l with
  | nil => intro s h; exact h
  | cons a t ih => intro s h; exact ih _ (hstep s a h)

/-- The loop of `conclude_search` touches `std::cout` and the stop flag only. -/
theorem flush_tasks_frame (needle : List Char) :
    ∀ (l : List (File × List Char)) (st : AsyncState),
      (flush_tasks needle l st).m_threads_num = st.m_threads_num ∧
      (flush_tasks needle l st).m_futures = st.m_futures ∧
      (flush_tasks needle l st).m_ostreams = st.m_ostreams ∧
      (flush_tasks needle l st).cerr = st.cerr := by
  intro l
  induction l with
  | nil => intro st; exact ⟨rfl, rfl, rfl, rfl⟩
  | cons a t ih =>
    intro st
    obtain ⟨f, buf⟩ := a
    unfold flush_tasks
    split
    · exact ⟨rfl, rfl, rfl, rfl⟩
    · exact ih _

theorem conclude_search_batch (needle : List Char) (k : Nat) (st : AsyncState)
    (h1 : st.m_threads_num = k) (h2 : st.m_futures.length = st.m_ostreams.length)
    (h3 : st.m_futures.length ≤ k) :
    (conclude_search needle st).m_threads_num = k ∧
    (conclude_search needle st).m_futures.length = (conclude_search needle st).m_ostreams.length ∧
    (conclude_search needle st).m_futures.length ≤ k ∧
    ((conclude_search needle st).stop = none →
      (conclude_search needle st).m_futures = [] ∧ (conclude_search needle st).m_ostreams = []) := by
  unfold conclude_search
  have hf := flush_tasks_frame needle (st.m_futures.zip st.m_ostreams) st
  cases hs : st.stop with
  | some x =>
    simp only [Option.isSome_some, ↓reduceIte]
    refine ⟨h1, h2, h3, ?_⟩
    intro hn
    rw [hs] at hn
    cases hn
  | none =>
    simp only [Option.isSome_none, Bool.false_eq_true, ↓reduceIte]
    cases hs2 : (flush_tasks needle (st.m_futures.zip st.m_ostreams) st).stop with
    | some x =>
      simp only [Option.isSome_some, ↓reduceIte, hs2]
      rw [hf.1, hf.2.1, hf.2.2.1]
      exact ⟨h1, h2, h3, by simp⟩
    | none =>
      simp only [Option.isSome_none, Bool.false_eq_true, ↓reduceIte]
      refine ⟨?_, ?_, ?_, ?_⟩
      · exact hf.1.trans h1
      · simp
      · simp
      · simp

theorem dispatch_search_batch (needle : List Char) (k : Nat) (hk : 1 ≤ k) (st : AsyncState)
    (f : File) (h : BatchInv k st) : BatchInv k (dispatch_search needle st f) := by
  unfold dispatch_search
  cases hs : st.stop with
  | some x =>
    simp only [Option.isSome_some, ↓reduceIte]
    exact h
  | none =>
    have hlt := h.lt hs
    simp only [Option.isSome_none, Bool.false_eq_true, ↓reduceIte]
    split
    · exact ⟨h.bound, h.same, h.le, by simp⟩
    · split
      · split
        · have hc := conclude_search_batch needle k (submit st f) h.bound
            (by simp [submit, h.same]) (by simp [submit]; omega)
          refine ⟨hc.1, hc.2.1, hc.2.2.1, ?_⟩
          intro hn
          rw [(hc.2.2.2 hn).1]
          exact hk
        · rename_i hnot
          have hb := h.bound
          have hsame := h.same
          have hnot2 : st.m_futures.length + 1 < st.m_threads_num := by
            simpa [submit] using hnot
          refine ⟨hb, ?_, ?_, fun _ => ?_⟩ <;>
            simp only [submit, List.length_append, List.length_singleton, List.length_nil] <;>
            omega
      · split
        · exact ⟨h.bound, h.same, h.le, by simp⟩
        · exact ⟨h.bound, h.same, h.le, fun _ => hlt⟩

/-- How `dispatch_search` treats a file whose size is known, in a run that goes
on: a file of more than `MIN_BUF_LEN_FOR_ASYNC` bytes becomes a task (and the
batch is flushed when it is full), any other file is scanned inline. -/
theorem dispatch_search_cases (needle : List Char) (st : AsyncState) (f : File)
    (hrun : st.stop = none) (hsize : f.size_error = none) :
    (MIN_BUF_LEN_FOR_ASYNC < f.bytes.length →
      dispatch_search needle st f =
        if st.m_threads_num ≤ st.m_futures.length + 1 then conclude_search needle (submit st f)
        else submit st f) ∧
    (f.bytes.length ≤ MIN_BUF_LEN_FOR_ASYNC →
      dispatch_search needle st f =
        match m_file_searcher needle f with
        | none => { st with stop := some Stop.hung }
        | some w => { st with cout := st.cout ++ w.cout ++ w.out }) := by
  unfold dispatch_search
  simp only [hrun, hsize, Option.isSome_none, Bool.false_eq_true, ↓reduceIte]
  constructor
  · intro h
    rw [if_pos h]
    simp [submit]
  · intro h
    rw [if_neg (by omega)]

/-- C17 (failing input): a file of exactly `MIN_BUF_LEN_FOR_ASYNC` = 51200000
bytes is scanned inline: no task is submitted for it, and what its scan writes
goes straight to `std::cout`. -/
theorem threshold_file_is_scanned_inline (needle : List Char) (st : AsyncState) (f : File)
    (hrun : st.stop = none) (hsize : f.size_error = none)
    (hlen : f.bytes.length = MIN_BUF_LEN_FOR_ASYNC) :
    MIN_BUF_LEN_FOR_ASYNC = 51200000 ∧ is_task f = false ∧
    (dispatch_search needle st f).m_futures = st.m_futures ∧
    (dispatch_search needle st f).m_ostreams = st.m_ostreams ∧
    ∀ w, m_file_searcher needle f = some w →
      dispatch_search needle st f = { st with cout := st.cout ++ w.cout ++ w.out } := by
  have h := (dispatch_search_cases needle st f hrun hsize).2 (by omega)
  refine ⟨by decide, by simp [is_task, hlen], ?_, ?_, ?_⟩
  · rw [h]
    split <;> rfl
  · rw [h]
    split <;> rfl
  · intro w hw
    rw [h, hw]

theorem threshold_file_is_scanned_inline_witness :
    (async_init 2).stop = none ∧
    (List.replicate 51200000 'a').length = MIN_BUF_LEN_FOR_ASYNC ∧
    is_task ⟨['d', '/', 'f'], ['f'], List.replicate 51200000 'a', true, none⟩ = false ∧
    (dispatch_search ['a', 'b'] (async_init 2)
      ⟨['d', '/', 'f'], ['f'], List.replicate 51200000 'a', true, none⟩).m_futures = [] :=
  ⟨rfl, by rw [List.length_replicate]; decide,
    (threshold_file_is_scanned_inline ['a', 'b'] (async_init 2)
      ⟨['d', '/', 'f'], ['f'], List.replicate 51200000 'a', true, none⟩ rfl rfl
      (by rw [List.length_replicate]; decide)).2.1,
    (threshold_file_is_scanned_inline ['a', 'b'] (async_init 2)
      ⟨['d', '/', 'f'], ['f'], List.replicate 51200000 'a', true, none⟩ rfl rfl
      (by rw [List.length_replicate]; decide)).2.2.1⟩

/-- What the scan of a file that cannot be opened writes. -/
theorem m_file_searcher_unopenable (needle : List Char) (f : File) (h : f.openable = false) :
    m_file_searcher needle f =
      some ⟨[], "Could not open file ".toList ++ trim_quotation_marks f.file_name ++ ['\n']⟩ := by
  unfold m_file_searcher FileSearcher.call
  simp [h]

theorem foldl_stopped (needle : List Char) :
    ∀ (files : List File) (st : AsyncState), st.stop.isSome = true →
      files.foldl (dispatch_search needle) st = st := by
  intro files
  induction files with
  | nil => intro st _; rfl
  | cons f t ih =>
    intro st h
    have : dispatch_search needle st f = st := by
      unfold dispatch_search
      rw [if_pos h]
    rw [List.foldl_cons, this]
    exact ih st h

/-- C11 (counterexample): in a traversal of two small files where the size of
the first cannot be queried, the run ends with `exit(-1)` and nothing on
`std::cout`, although the scan of the second file would write a match line. -/
theorem size_error_ends_the_run :
    (run_async "abc".toList 2
      [⟨"d/a".toList, "a".toList, "abc".toList, true, some "denied".toList⟩,
       ⟨"d/b".toList, "b".toList, "xxabcxx".toList, true, none⟩]).stop
      = some (Stop.exited (-1)) ∧
    (run_async "abc".toList 2
      [⟨"d/a".toList, "a".toList, "abc".toList, true, some "denied".toList⟩,
       ⟨"d/b".toList, "b".toList, "xxabcxx".toList, true, none⟩]).cout = [] ∧
    block "abc".toList ⟨"d/b".toList, "b".toList, "xxabcxx".toList, true, none⟩
      = "b(2):xx...xx\n".toList := by
  decide

/-- C11 (amended): in a run that goes on, a file that cannot be opened makes
its scan write `Could not open file` and its name to `std::cout` and nothing
else, and when it is scanned inline the run goes on with that line added; a
file whose size cannot be queried makes `dispatch_search` write the error to
`std::cerr` and stop the process with `exit(-1)`: whatever files follow, nothing
more is written, and pending tasks stay unflushed. -/
theorem io_errors_by_kind (needle : List Char) (st : AsyncState) (f : File)
    (hrun : st.stop = none) :
    (f.openable = false →
      m_file_searcher needle f =
        some ⟨[], "Could not open file ".toList ++ trim_quotation_marks f.file_name ++ ['\n']⟩) ∧
    (f.openable = false → f.size_error = none → f.bytes.length ≤ MIN_BUF_LEN_FOR_ASYNC →
      dispatch_search needle st f =
        { st with cout := st.cout ++
            ("Could not open file ".toList ++ trim_quotation_marks f.file_name ++ ['\n']) }) ∧
    (∀ what, f.size_error = some what → ∀ rest : List File,
      conclude_search needle ((f :: rest).foldl (dispatch_search needle) st) =
        { st with cerr := st.cerr ++ size_error_text f what,
                  stop := some (Stop.exited (-1)) }) := by
  refine ⟨m_file_searcher_unopenable needle f, ?_, ?_⟩
  · intro ho hs hl
    rw [(dispatch_search_cases needle st f hrun hs).2 hl, m_file_searcher_unopenable needle f ho]
    simp
  · intro what hw rest
    have h1 : dispatch_search needle st f =
        { st with cerr := st.cerr ++ size_error_text f what,
                  stop := some (Stop.exited (-1)) } := by
      unfold dispatch_search
      simp [hrun, hw]
    have h2 := foldl_stopped needle rest
      { st with cerr := st.cerr ++ size_error_text f what, stop := some (Stop.exited (-1)) } rfl
    rw [List.foldl_cons, h1, h2]
    unfold conclude_search
    simp

theorem io_errors_by_kind_witness :
    (async_init 2).stop = none ∧
    dispatch_search "abc".toList (async_init 2)
        ⟨"d/a".toList, "\"a\"".toList, "abc".toList, false, none⟩ =
      { async_init 2 with cout := [] ++ ("Could not open file ".toList ++
          trim_quotation_marks "\"a\"".toList ++ ['\n']) } ∧
    conclude_search "abc".toList
        ((⟨"d/a".toList, "a".toList, "abc".toList, true, some "denied".toList⟩ ::
          [⟨"d/b".toList, "b".toList, "xxabcxx".toList, true, none⟩]).foldl
          (dispatch_search "abc".toList) (async_init 2)) =
      { async_init 2 with
        cerr := [] ++ size_error_text
          ⟨"d/a".toList, "a".toList, "abc".toList, true, some "denied".toList⟩ "denied".toList,
        stop := some (Stop.exited (-1)) } :=
  ⟨rfl,
    (io_errors_by_kind "abc".toList (async_init 2)
      ⟨"d/a".toList, "\"a\"".toList, "abc".toList, false, none⟩ rfl).2.1 rfl rfl (by decide),
    (io_errors_by_kind "abc".toList (async_init 2)
      ⟨"d/a".toList, "a".toList, "abc".toList, true, some "denied".toList⟩ rfl).2.2
      "denied".toList rfl _⟩

theorem block_of_some (needle : List Char) (f : File) (w : Written)
    (h : m_file_searcher needle f = some w) : block needle f = w.cout ++ w.out := by
  unfold block
  rw [h]

theorem flush_tasks_blocks (needle : List Char) :
    ∀ (pend : List File) (st : AsyncState),
      (∀ f ∈ pend, (m_file_searcher needle f).isSome = true) →
      flush_tasks needle (pend.zip (List.replicate pend.length [])) st =
        { st with cout := st.cout ++ (pend.map (block needle)).flatten } := by
  intro pend
  induction pend with
  | nil => intro st _; simp [flush_tasks]
  | cons f t ih =>
    intro st h
    obtain ⟨w, hw⟩ := Option.isSome_iff_exists.mp (h f (by simp))
    have ht : ∀ g ∈ t, (m_file_searcher needle g).isSome = true :=
      fun g hg => h g (by simp [hg])
    have hz : (f :: t).zip (List.replicate (f :: t).length ([] : List Char))
        = (f, []) :: t.zip (List.replicate t.length []) := rfl
    rw [hz, flush_tasks]
    simp only [hw]
    rw [ih _ ht]
    simp [block_of_some needle f w hw]

theorem conclude_search_blocks (needle : List Char) (st : AsyncState) (hrun : st.stop = none)
    (hs : st.m_ostreams = List.replicate st.m_futures.length [])
    (ht : ∀ f ∈ st.m_futures, (m_file_searcher needle f).isSome = true) :
    conclude_search needle st =
      { st with cout := st.cout ++ (st.m_futures.map (block needle)).flatten,
                m_futures := [], m_ostreams := [] } := by
  unfold conclude_search
  rw [hs, flush_tasks_blocks needle _ st ht]
  simp [hrun]

theorem dispatch_search_order (needle : List Char) (k : Nat) (pre : List File)
    (st : AsyncState) (f : File) (h : OrderInv needle k pre st) (hsize : f.size_error = none)
    (hret : (m_file_searcher needle f).isSome = true) :
    OrderInv needle k (pre ++ [f]) (dispatch_search needle st f) := by
  obtain ⟨d, hd1, hd2, hd3⟩ := h.done
  have hc := dispatch_search_cases needle st f h.run hsize
  by_cases hbig : MIN_BUF_LEN_FOR_ASYNC < f.bytes.length
  · have htask : is_task f = true := by simp [is_task, hbig]
    rw [hc.1 hbig]
    have hsub_streams : (submit st f).m_ostreams
        = List.replicate (submit st f).m_futures.length [] := by
      simp only [submit, List.length_append, List.length_singleton, List.replicate_succ']
      rw [h.streams]
    have hsub_tasks : ∀ g ∈ (submit st f).m_futures,
        is_task g = true ∧ (m_file_searcher needle g).isSome = true := by
      intro g hg
      simp only [submit, List.mem_append, List.mem_singleton] at hg
      rcases hg with hg | rfl
      · exact h.tasks g hg
      · exact ⟨htask, hret⟩
    split
    · rw [conclude_search_blocks needle (submit st f) h.run hsub_streams
        (fun g hg => (hsub_tasks g hg).2)]
      refine ⟨h.run, h.bound, rfl, by simp, d ++ (st.m_futures ++ [f]), ?_, ?_, ?_⟩
      · simp [submit, hd1]
      · have hall : (st.m_futures ++ [f]).filter is_task = st.m_futures ++ [f] :=
          List.filter_eq_self.mpr (fun g hg => (hsub_tasks g hg).1)
        simp only [List.filter_append, List.append_nil] at hall ⊢
        rw [hall, ← hd2]
        simp [htask]
      · have hnone : (st.m_futures ++ [f]).filter (fun f => !is_task f) = [] := by
          rw [List.filter_eq_nil_iff]
          intro g hg
          simp [(hsub_tasks g hg).1]
        simp only [List.filter_append] at hnone ⊢
        rw [hnone, ← hd3]
        simp [htask]
    · refine ⟨h.run, h.bound, hsub_streams, hsub_tasks, d, hd1, ?_, ?_⟩
      · simp only [submit, List.filter_append]
        rw [← hd2]
        simp [htask]
      · simp only [List.filter_append]
        rw [← hd3]
        simp [htask]
  · have htask : is_task f = false := by simp [is_task]; omega
    obtain ⟨w, hw⟩ := Option.isSome_iff_exists.mp hret
    rw [hc.2 (by omega), hw]
    refine ⟨h.run, h.bound, h.streams, h.tasks, d ++ [f], ?_, ?_, ?_⟩
    · simp [hd1, block_of_some needle f w hw]
    · simp only [List.filter_append]
      rw [← hd2]
      simp [htask]
    · simp only [List.filter_append]
      rw [← hd3]

theorem foldl_dispatch_order (needle : List Char) (k : Nat) (files : List File)
    (hsize : ∀ f ∈ files, f.size_error = none)
    (hret : ∀ f ∈ files, (m_file_searcher needle f).isSome = true) :
    OrderInv needle k files (files.foldl (dispatch_search needle) (async_init k)) := by
  induction files using List.reverseRecOn with
  | nil => exact ⟨rfl, rfl, rfl, by simp [async_init], [], rfl, rfl, rfl⟩
  | append_singleton l a ih =>
    rw [List.foldl_append]
    exact dispatch_search_order needle k l _ a
      (ih (fun f hf => hsize f (by simp [hf])) (fun f hf => hret f (by simp [hf])))
      (hsize a (by simp)) (hret a (by simp))

theorem run_sync_blocks (needle : List Char) :
    ∀ (files : List File) (st : SyncState), st.stop = none →
      (∀ f ∈ files, f.size_error = none) →
      (∀ f ∈ files, (m_file_searcher needle f).isSome = true) →
      (files.foldl (sync_dispatch_search needle) st).stop = none ∧
      (files.foldl (sync_dispatch_search needle) st).cout =
        st.cout ++ (files.map (block needle)).flatten := by
  intro files
  induction files with
  | nil => intro st h _ _; simp [h]
  | cons f t ih =>
    intro st h hsize hret
    obtain ⟨w, hw⟩ := Option.isSome_iff_exists.mp (hret f (by simp))
    have hstep : sync_dispatch_search needle st f = { st with cout := st.cout ++ w.cout ++ w.out } := by
      unfold sync_dispatch_search
      simp [h, hsize f (by simp), hw]
    rw [List.foldl_cons, hstep]
    have := ih { st with cout := st.cout ++ w.cout ++ w.out } h
      (fun g hg => hsize g (by simp [hg])) (fun g hg => hret g (by simp [hg]))
    refine ⟨this.1, ?_⟩
    rw [this.2]
    simp [block_of_some needle f w hw]

/-- Enough for every scan of a run to return: a pattern of at most 127 bytes. -/
theorem m_file_searcher_returns (needle : List Char) (f : File)
    (hlen : needle.length ≤ 127) : (m_file_searcher needle f).isSome = true := by
  unfold m_file_searcher FileSearcher.call
  cases f.openable with
  | false => rfl
  | true =>
    obtain ⟨t, ht, -⟩ := scan_terminates f.bytes needle (by unfold MAX_NEEDLE_LEN; omega)
      (by omega)
    simp [ht]

/-- Block order of the two dispatchers on a traversal without a scan that
hangs: when the size of every file of the traversal can be queried and every
scan returns, the run of the concurrent dispatcher ends normally and its output
is the concatenation of the whole blocks of a list `order` of files that is a
reordering of the traversal, with the tasks in traversal order among themselves
and the inline files in traversal order among themselves; the synchronous
dispatcher writes the blocks in traversal order. -/
theorem async_output_is_block_reordering (needle : List Char) (k : Nat) (files : List File)
    (hsize : ∀ f ∈ files, f.size_error = none)
    (hret : ∀ f ∈ files, (m_file_searcher needle f).isSome = true) :
    ∃ order : List File,
      (run_async needle k files).stop = none ∧
      (run_async needle k files).cout = (order.map (block needle)).flatten ∧
      order.Perm files ∧
      order.filter is_task = files.filter is_task ∧
      order.filter (fun f => !is_task f) = files.filter (fun f => !is_task f) ∧
      (run_sync needle files).stop = none ∧
      (run_sync needle files).cout = (files.map (block needle)).flatten := by
  have h := foldl_dispatch_order needle k files hsize hret
  obtain ⟨d, hd1, hd2, hd3⟩ := h.done
  have hs := run_sync_blocks needle files ⟨[], [], none⟩ rfl hsize hret
  have hall : (files.foldl (dispatch_search needle) (async_init k)).m_futures.filter is_task
      = (files.foldl (dispatch_search needle) (async_init k)).m_futures :=
    List.filter_eq_self.mpr (fun g hg => (h.tasks g hg).1)
  have hnone : (files.foldl (dispatch_search needle) (async_init k)).m_futures.filter
      (fun f => !is_task f) = [] := by
    rw [List.filter_eq_nil_iff]
    intro g hg
    simp [(h.tasks g hg).1]
  have e1 : (d ++ (files.foldl (dispatch_search needle) (async_init k)).m_futures).filter is_task
      = files.filter is_task := by
    rw [List.filter_append, hall, hd2]
  have e2 : (d ++ (files.foldl (dispatch_search needle) (async_init k)).m_futures).filter
      (fun f => !is_task f) = files.filter (fun f => !is_task f) := by
    rw [List.filter_append, hnone, hd3, List.append_nil]
  refine ⟨d ++ (files.foldl (dispatch_search needle) (async_init k)).m_futures, ?_, ?_, ?_,
    e1, e2, hs.1, by simpa [run_sync] using hs.2⟩
  · unfold run_async
    rw [conclude_search_blocks needle _ h.run h.streams (fun g hg => (h.tasks g hg).2)]
    exact h.run
  · unfold run_async
    rw [conclude_search_blocks needle _ h.run h.streams (fun g hg => (h.tasks g hg).2)]
    simp [hd1]
  · have p1 := List.filter_append_perm is_task
      (d ++ (files.foldl (dispatch_search needle) (async_init k)).m_futures)
    have p2 := List.filter_append_perm is_task files
    rw [e1, e2] at p1
    exact p1.symm.trans p2

theorem async_output_is_block_reordering_witness :
    (∀ f ∈ [(⟨"d/big".toList, "big".toList, List.replicate 51200001 'x', true, none⟩ : File),
        ⟨"d/a".toList, "a".toList, "xxabcxx".toList, true, none⟩], f.size_error = none) ∧
    ∃ order : List File,
      (run_async "abc".toList 2
        [⟨"d/big".toList, "big".toList, List.replicate 51200001 'x', true, none⟩,
         ⟨"d/a".toList, "a".toList, "xxabcxx".toList, true, none⟩]).stop = none ∧
      (run_async "abc".toList 2
        [⟨"d/big".toList, "big".toList, List.replicate 51200001 'x', true, none⟩,
         ⟨"d/a".toList, "a".toList, "xxabcxx".toList, true, none⟩]).cout
        = (order.map (block "abc".toList)).flatten ∧
      order.Perm
        [⟨"d/big".toList, "big".toList, List.replicate 51200001 'x', true, none⟩,
         ⟨"d/a".toList, "a".toList, "xxabcxx".toList, true, none⟩] ∧
      order.filter is_task = [(⟨"d/big".toList, "big".toList, List.replicate 51200001 'x', true,
          none⟩ : File),
        ⟨"d/a".toList, "a".toList, "xxabcxx".toList, true, none⟩].filter is_task ∧
      order.filter (fun f => !is_task f) =
        [(⟨"d/big".toList, "big".toList, List.replicate 51200001 'x', true, none⟩ : File),
          ⟨"d/a".toList, "a".toList, "xxabcxx".toList, true, none⟩].filter
          (fun f => !is_task f) ∧
      (run_sync "abc".toList
        [⟨"d/big".toList, "big".toList, List.replicate 51200001 'x', true, none⟩,
         ⟨"d/a".toList, "a".toList, "xxabcxx".toList, true, none⟩]).stop = none ∧
      (run_sync "abc".toList
        [⟨"d/big".toList, "big".toList, List.replicate 51200001 'x', true, none⟩,
         ⟨"d/a".toList, "a".toList, "xxabcxx".toList, true, none⟩]).cout
        = ([(⟨"d/big".toList, "big".toList, List.replicate 51200001 'x', true, none⟩ : File),
          ⟨"d/a".toList, "a".toList, "xxabcxx".toList, true, none⟩].map
            (block "abc".toList)).flatten :=
  have hsize : ∀ f ∈ [(⟨"d/big".toList, "big".toList, List.replicate 51200001 'x', true,
      none⟩ : File), ⟨"d/a".toList, "a".toList, "xxabcxx".toList, true, none⟩],
      f.size_error = none := by
    intro f hf
    rcases List.mem_cons.mp hf with rfl | hf
    · rfl
    · rcases List.mem_cons.mp hf with rfl | hf
      · rfl
      · cases hf
  ⟨hsize, async_output_is_block_reordering "abc".toList 2 _ hsize
    (fun f _ => m_file_searcher_returns "abc".toList f (by decide))⟩

theorem find?_lt_of_pairwise (p : Nat → Bool) :
    ∀ (l : List Nat) (a : Nat), l.Pairwise (fun x y => x < y) → l.find? p = some a →
      ∀ x ∈ l, x < a → p x = false := by
  intro l
  induction l with
  | nil => intro a _ h; simp at h
  | cons h t ih =>
    intro a hp hf x hx hxa
    rw [List.pairwise_cons] at hp
    rw [List.find?_cons] at hf
    cases hph : p h with
    | true =>
      rw [hph] at hf
      simp only [Option.some.injEq] at hf
      subst hf
      rcases List.mem_cons.mp hx with rfl | hx
      · omega
      · have := hp.1 x hx
        omega
    | false =>
      rw [hph] at hf
      rcases List.mem_cons.mp hx with rfl | hx
      · exact hph
      · exact ih a hp.2 hf x hx hxa

/-- The searcher returns the first occurrence: there is none before its result. -/
theorem boyer_moore_min (needle buffer : List Char) (first last : Nat)
    (h : boyer_moore needle buffer first last ≠ last) :
    ∀ j, first ≤ j → j < boyer_moore needle buffer first last →
      needle_at needle buffer j = false := by
  intro j hj hlt
  have hs := boyer_moore_spec needle buffer first last h
  unfold boyer_moore at h hlt hs
  cases hf : (List.range' first (last + 1 - (first + needle.length))).find?
      (needle_at needle buffer) with
  | none => simp [hf] at h
  | some p =>
    rw [hf] at hlt hs
    simp only [Option.getD_some] at hlt hs
    exact find?_lt_of_pairwise _ _ p (List.pairwise_lt_range' first _) hf j
      (by rw [List.mem_range'_1]; omega) hlt

/-- When the searcher finds nothing, the pattern stands nowhere in the range. -/
theorem boyer_moore_none (needle buffer : List Char) (first last : Nat)
    (hn : 1 ≤ needle.length) (h : boyer_moore needle buffer first last = last) :
    ∀ j, first ≤ j → j + needle.length ≤ last → needle_at needle buffer j = false := by
  intro j hj hl
  unfold boyer_moore at h
  cases hf : (List.range' first (last + 1 - (first + needle.length))).find?
      (needle_at needle buffer) with
  | none =>
    rw [List.find?_eq_none] at hf
    have := hf j (by rw [List.mem_range'_1]; omega)
    simpa using this
  | some p =>
    rw [hf] at h
    simp only [Option.getD_some] at h
    have hm := List.mem_of_find?_eq_some hf
    rw [List.mem_range'_1] at hm
    omega

theorem occ_getElem? (src needle : List Char) (q : Nat) (h : Occ src needle q) :
    ∀ i, i < needle.length → src[q + i]? = needle[i]? := by
  intro i hi
  have := congrArg (fun l => l[i]?) h.2
  simp only [List.getElem?_take, List.getElem?_drop, if_pos hi] at this
  exact this

/-- Two occurrences one byte apart force all the bytes of the pattern to be the
same. -/
theorem no_adjacent_occurrences (src needle : List Char)
    (hd : ∃ a ∈ needle, ∃ b ∈ needle, a ≠ b) (q : Nat)
    (h1 : Occ src needle q) (h2 : Occ src needle (q + 1)) : False := by
  have g1 := occ_getElem? src needle q h1
  have g2 := occ_getElem? src needle (q + 1) h2
  have step : ∀ i, i + 1 < needle.length → needle[i + 1]? = needle[i]? := by
    intro i hi
    rw [← g1 (i + 1) hi, ← g2 i (by omega)]
    congr 1
    omega
  have all : ∀ i, i < needle.length → needle[i]? = needle[0]? := by
    intro i
    induction i with
    | zero => intro _; rfl
    | succ i ih =>
      intro hi
      rw [step i hi]
      exact ih (by omega)
  obtain ⟨a, ha, b, hb, hab⟩ := hd
  obtain ⟨i, hi, rfl⟩ := List.getElem_of_mem ha
  obtain ⟨j, hj, rfl⟩ := List.getElem_of_mem hb
  apply hab
  have e1 := all i hi
  have e2 := all j hj
  rw [List.getElem?_eq_getElem hi] at e1
  rw [List.getElem?_eq_getElem hj] at e2
  exact Option.some.inj (e1.trans e2.symm)

/-- Inside the window, an occurrence in the source is an occurrence in the
buffer. -/
theorem occ_needle_at (src needle : List Char) (s : ScanState) (B : Nat)
    (h : MidInv src needle B s) (j : Nat) (hj : j + needle.length ≤ s.window_len)
    (ho : Occ src needle (s.window_pos_in_file + j)) : needle_at needle s.buffer j = true := by
  unfold needle_at
  rw [← window_occ src s.buffer s.window_pos_in_file s.window_len j needle.length h.window hj,
    ho.2]
  simp

/-- One round of the inner loop that reports a hit. -/
theorem inner_scan_one (needle : List Char) (s : ScanState)
    (hlt : s.hay_start_pos + needle.length < s.hay_len)
    (hne : boyer_moore needle s.buffer s.hay_start_pos s.hay_len ≠ s.hay_len) :
    inner_scan needle (0 + 1) s =
      { s with
        out := s.out ++ [{ offset := s.window_pos_in_file +
                             boyer_moore needle s.buffer s.hay_start_pos s.hay_len
                           pre := context_before s.buffer
                             (boyer_moore needle s.buffer s.hay_start_pos s.hay_len)
                           suf := context_after needle s.buffer s.window_len
                             (boyer_moore needle s.buffer s.hay_start_pos s.hay_len) }]
        hay_start_pos := boyer_moore needle s.buffer s.hay_start_pos s.hay_len + 1 } := by
  rw [inner_scan]
  simp only [hlt, ↓reduceIte, hne]
  rfl

theorem inner_scan_comp (src needle : List Char) (B : Nat) (fuel : Nat) :
    ∀ s, MidInv src needle B s → CompMid src needle B s →
      CompMid src needle B (inner_scan needle fuel s) := by
  induction fuel with
  | zero => intro s _ h; exact h
  | succ k ih =>
    intro s hm hc
    unfold inner_scan
    split
    · rename_i hlt
      simp only
      split
      · exact hc
      · rename_i hne
        have hm1 := inner_scan_mid src needle B (0 + 1) s hm
        rw [inner_scan_one needle s hlt hne] at hm1
        apply ih _ hm1
        obtain ⟨h1, h2, h3⟩ := boyer_moore_spec needle s.buffer s.hay_start_pos s.hay_len hne
        have hmin := boyer_moore_min needle s.buffer s.hay_start_pos s.hay_len hne
        generalize boyer_moore needle s.buffer s.hay_start_pos s.hay_len = p at *
        have hay := hm.hay_le
        refine ⟨?_, ?_, hc.full⟩
        · intro q hq hlt2
          simp only at hlt2
          simp only [List.map_append, List.map_cons, List.map_nil, List.mem_append,
            List.mem_singleton]
          by_cases hq1 : q < s.window_pos_in_file + s.hay_start_pos
          · exact Or.inl (hc.cov q hq hq1)
          · by_cases hq2 : q = s.window_pos_in_file + p
            · exact Or.inr hq2
            · exfalso
              have hj : s.window_pos_in_file + (q - s.window_pos_in_file) = q := by omega
              have hat := occ_needle_at src needle s B hm (q - s.window_pos_in_file)
                (by omega) (by rw [hj]; exact hq)
              rw [hmin (q - s.window_pos_in_file) (by omega) (by omega)] at hat
              cases hat
        · right
          right
          simp only [List.map_append, List.map_cons, List.map_nil, List.mem_append,
            List.mem_singleton]
          exact ⟨by omega, Or.inr (by omega)⟩
    · exact hc

/-- At the end of the inner loop the only place left in the haystack where the
pattern can stand unreported is the cursor itself, and then it ends exactly at
`hay_len`. -/
theorem inner_scan_post (needle : List Char) (hn : 1 ≤ needle.length) (s : ScanState) :
    ∀ j, (inner_scan needle s.hay_len s).hay_start_pos ≤ j → j + needle.length ≤ s.hay_len →
      needle_at needle s.buffer j = true →
      j = (inner_scan needle s.hay_len s).hay_start_pos ∧
      (inner_scan needle s.hay_len s).hay_start_pos + needle.length = s.hay_len := by
  intro j hj hl hat
  rcases inner_scan_done needle s.hay_len s (by omega) with h | h
  · omega
  · rw [boyer_moore_none needle s.buffer _ s.hay_len hn h j hj hl] at hat
    cases hat

theorem refill_comp (src needle : List Char) (B : Nat) (hB : needle.length + 5 ≤ B)
    (s : ScanState) (h : HeadInv src needle B s) (hc : CompHead src needle B s) :
    CompMid src needle B (refill src B s) := by
  unfold refill
  cases hg : s.in_good with
  | false =>
    obtain ⟨c1, c2, c3⟩ := hc.bad hg
    simp only [Bool.false_eq_true, ↓reduceIte]
    exact ⟨c1, c2, by simp [hg]⟩
  | true =>
    obtain ⟨g1, g2, g3, g4, g5, g6, g7⟩ := h.good hg
    obtain ⟨c1, c2⟩ := hc.good hg
    simp only [↓reduceIte]
    have hlen : ((src.drop s.in_pos).take (B - s.padding)).length
        = min (B - s.padding) (src.length - s.in_pos) := by simp
    generalize (src.drop s.in_pos).take (B - s.padding) = got at *
    refine ⟨?_, ?_, ?_⟩
    · intro q hq hlt
      simp only at hlt
      exact c2 q hq (by omega)
    · simp only
      rcases g6 with ⟨p0, p1, p2⟩ | ⟨p0, p1⟩
      · left
        exact ⟨p1, by omega⟩
      · right
        left
        exact ⟨p1, by omega, by omega⟩
    · intro hg2
      simp only [decide_eq_true_eq] at hg2
      simp only [AFIX_LEN]
      split <;> omega

/-- The skipped place of `inner_scan_post` holds no occurrence, neither when the
window is left behind nor when the last window has been searched to its end. -/
theorem no_skipped_occurrence (src needle : List Char) (B : Nat)
    (hd : ∃ a ∈ needle, ∃ b ∈ needle, a ≠ b) (hS : needle.length < src.length)
    (hW : needle.length + 6 < B ∨ src.length ≤ B)
    (e : ScanState) (hm : MidInv src needle B e) (hc : CompMid src needle B e)
    (hend : e.in_good = true ∨ e.hay_len = e.window_len)
    (ho : Occ src needle (e.window_pos_in_file + e.hay_start_pos))
    (hskip : e.hay_start_pos + needle.length = e.hay_len) : False := by
  have hws := hm.win_src
  rcases hc.cur with ⟨c0, p0⟩ | ⟨c3, hpos, hwl⟩ | ⟨c1, hmem⟩
  · rcases hend with hg | hfin
    · have := hm.good hg
      have := hc.full hg
      omega
    · cases hg : e.in_good with
      | true =>
        have := hm.good hg
        have := hc.full hg
        omega
      | false =>
        have := hm.bad hg
        omega
  · rcases hend with hg | hfin
    · have := hm.good hg
      have := hc.full hg
      omega
    · omega
  · rw [List.mem_map] at hmem
    obtain ⟨m, hmo, hmeq⟩ := hmem
    have hgood := hm.out_good m hmo
    have h1 : Occ src needle (e.window_pos_in_file + e.hay_start_pos - 1) := by
      rw [← hmeq]
      exact ⟨hgood.inside, hgood.occ⟩
    have h2 : Occ src needle (e.window_pos_in_file + e.hay_start_pos - 1 + 1) := by
      have : e.window_pos_in_file + e.hay_start_pos - 1 + 1
          = e.window_pos_in_file + e.hay_start_pos := by omega
      rw [this]
      exact ho
    exact no_adjacent_occurrences src needle hd _ h1 h2

theorem prepare_comp (src needle : List Char) (B : Nat)
    (hd : ∃ a ∈ needle, ∃ b ∈ needle, a ≠ b)
    (hS : needle.length < src.length) (hW : needle.length + 6 < B ∨ src.length ≤ B)
    (e : ScanState) (hm : MidInv src needle B e) (hc : CompMid src needle B e)
    (hpost : ∀ j, e.hay_start_pos ≤ j → j + needle.length ≤ e.hay_len →
      needle_at needle e.buffer j = true →
      j = e.hay_start_pos ∧ e.hay_start_pos + needle.length = e.hay_len) :
    CompHead src needle B (prepare_next needle e) := by
  have hay := hm.hay_le
  have hws := hm.win_src
  have close : ∀ q, Occ src needle q → e.window_pos_in_file + e.hay_start_pos ≤ q →
      q - e.window_pos_in_file + needle.length ≤ e.hay_len →
      (e.in_good = true ∨ e.hay_len = e.window_len) → False := by
    intro q hq hge hin hend
    have hj : e.window_pos_in_file + (q - e.window_pos_in_file) = q := by omega
    have hat := occ_needle_at src needle e B hm (q - e.window_pos_in_file) (by omega)
      (by rw [hj]; exact hq)
    obtain ⟨p1, p2⟩ := hpost (q - e.window_pos_in_file) (by omega) hin hat
    have hq2 : q = e.window_pos_in_file + e.hay_start_pos := by omega
    exact no_skipped_occurrence src needle B hd hS hW e hm hc hend (hq2 ▸ hq) p2
  unfold prepare_next
  cases hg : e.in_good with
  | true =>
    obtain ⟨g1, g2, g3, g4⟩ := hm.good hg
    obtain ⟨f1, f2⟩ := hc.full hg
    simp only [↓reduceIte, AFIX_LEN]
    refine ⟨fun _ => ⟨Or.inr f2, ?_⟩, by simp [hg]⟩
    intro q hq hlt
    simp only at hlt ⊢
    by_cases hq1 : q < e.window_pos_in_file + e.hay_start_pos
    · exact hc.cov q hq hq1
    · exact (close q hq (by omega) (by omega) (Or.inl hg)).elim
  | false =>
    simp only [Bool.false_eq_true, ↓reduceIte]
    refine ⟨by simp [hg], fun _ => ⟨hc.cov, hc.cur, ?_⟩⟩
    intro hfin q hq
    simp only at hfin ⊢
    by_cases hq1 : q < e.window_pos_in_file + e.hay_start_pos
    · exact hc.cov q hq hq1
    · have := (hm.bad hg).1
      have := hq.1
      exact (close q hq (by omega) (by omega) (Or.inr hfin)).elim

theorem pass_comp (src needle : List Char) (B : Nat) (hB : needle.length + 5 ≤ B)
    (hd : ∃ a ∈ needle, ∃ b ∈ needle, a ≠ b) (hn : 1 ≤ needle.length)
    (hS : needle.length < src.length) (hW : needle.length + 6 < B ∨ src.length ≤ B)
    (s : ScanState) (h : HeadInv src needle B s ∧ CompHead src needle B s) :
    HeadInv src needle B (pass src needle B s) ∧ CompHead src needle B (pass src needle B s) := by
  refine ⟨pass_head src needle B hB s h.1, ?_⟩
  have hm0 := refill_mid src needle B hB s h.1
  have hc0 := refill_comp src needle B hB s h.1 h.2
  have hm := inner_scan_mid src needle B (refill src B s).hay_len _ hm0
  have hc := inner_scan_comp src needle B (refill src B s).hay_len _ hm0 hc0
  have hf := inner_scan_frame needle (refill src B s).hay_len (refill src B s)
  have hpost := inner_scan_post needle hn (refill src B s)
  unfold pass
  apply prepare_comp src needle B hd hS hW _ hm hc
  intro j hj hl hat
  rw [hf.2.2.2.2.1] at hl
  rw [hf.2.2.1] at hat
  have := hpost j hj hl hat
  rw [hf.2.2.2.2.1]
  exact this

theorem init_comp (src needle : List Char) (B : Nat) : CompHead src needle B (init_state B) := by
  refine ⟨fun _ => ⟨Or.inl rfl, ?_⟩, ?_⟩
  · intro q _ hlt
    simp [init_state] at hlt
  · intro h
    simp [init_state] at h

/-- C19: for a pattern of at most 127 bytes that holds two different bytes and
a source longer than the pattern, the scan with the buffer length the code
picks leaves its loop within `S + 2` passes, and the offsets it has written are
exactly the offsets where the pattern stands in the source, each written
once. -/
theorem conditional_completeness (src needle : List Char)
    (hlen : needle.length ≤ 127) (hd : ∃ a ∈ needle, ∃ b ∈ needle, a ≠ b)
    (hS : needle.length < src.length) :
    ∃ t, scan_loop src needle (buff_len_of src.length) (src.length + 2)
        (init_state (buff_len_of src.length)) = some t ∧
      (∀ q, q ∈ t.out.map Match.offset ↔
        (q + needle.length ≤ src.length ∧ (src.drop q).take needle.length = needle)) ∧
      (∀ q, q + needle.length ≤ src.length → (src.drop q).take needle.length = needle →
        (t.out.map Match.offset).count q = 1) := by
  have hn : 1 ≤ needle.length := by
    obtain ⟨a, ha, -⟩ := hd
    cases hne : needle with
    | nil => rw [hne] at ha; cases ha
    | cons c r => simp
  have hge := buff_len_of_ge src.length
  unfold BUF_LEN_MIN AFIX_LEN MAX_NEEDLE_LEN at hge
  have hB : needle.length + 5 ≤ buff_len_of src.length := by omega
  have hW : needle.length + 6 < buff_len_of src.length ∨ src.length ≤ buff_len_of src.length := by
    unfold buff_len_of BUF_LEN_MIN BUF_LEN_MAX AFIX_LEN MAX_NEEDLE_LEN
    simp only
    split <;> split <;> omega
  obtain ⟨t, ht, hta, hg, hfin, -⟩ := scan_terminates src needle
    (by unfold MAX_NEEDLE_LEN; omega) (by omega)
  have hinv : HeadInv src needle (buff_len_of src.length) t ∧
      CompHead src needle (buff_len_of src.length) t := by
    rw [hta]
    unfold scan_after
    exact passes_induct src needle _
      (fun s => HeadInv src needle (buff_len_of src.length) s ∧
        CompHead src needle (buff_len_of src.length) s)
      (pass_comp src needle _ hB hd hn hS hW) _ _ ⟨init_head src needle _, init_comp src needle _⟩
  have hall := (hinv.2.bad hg).2.2 hfin
  have hmem : ∀ q, q ∈ t.out.map Match.offset ↔ Occ src needle q := by
    intro q
    constructor
    · intro hq
      rw [List.mem_map] at hq
      obtain ⟨m, hm, rfl⟩ := hq
      exact ⟨(hinv.1.out_good m hm).inside, (hinv.1.out_good m hm).occ⟩
    · exact hall q
  have hnodup : (t.out.map Match.offset).Nodup := by
    have hp : (t.out.map Match.offset).Pairwise (fun a b => a < b) := by
      rw [List.pairwise_map]
      exact hinv.1.out_sorted
    exact hp.imp (fun hab => Nat.ne_of_lt hab)
  exact ⟨t, ht, hmem, fun q h1 h2 => List.count_eq_one_of_mem hnodup ((hmem q).mpr ⟨h1, h2⟩)⟩

theorem conditional_completeness_witness :
    ['a', 'b', 'c'].length ≤ 127 ∧
    (∃ a ∈ ['a', 'b', 'c'], ∃ b ∈ ['a', 'b', 'c'], a ≠ b) ∧
    ['a', 'b', 'c'].length < "xxabcxxabcxx".toList.length ∧
    ∃ t, scan_loop "xxabcxxabcxx".toList ['a', 'b', 'c']
        (buff_len_of "xxabcxxabcxx".toList.length) ("xxabcxxabcxx".toList.length + 2)
        (init_state (buff_len_of "xxabcxxabcxx".toList.length)) = some t ∧
      (∀ q, q ∈ t.out.map Match.offset ↔
        (q + ['a', 'b', 'c'].length ≤ "xxabcxxabcxx".toList.length ∧
          ("xxabcxxabcxx".toList.drop q).take ['a', 'b', 'c'].length = ['a', 'b', 'c'])) ∧
      (∀ q, q + ['a', 'b', 'c'].length ≤ "xxabcxxabcxx".toList.length →
        ("xxabcxxabcxx".toList.drop q).take ['a', 'b', 'c'].length = ['a', 'b', 'c'] →
        (t.out.map Match.offset).count q = 1) :=
  ⟨by decide, ⟨'a', by decide, 'b', by decide, by decide⟩, by decide,
    conditional_completeness "xxabcxxabcxx".toList ['a', 'b', 'c'] (by decide)
      ⟨'a', by decide, 'b', by decide, by decide⟩ (by decide)⟩

theorem is_task_size (f : File) (h : is_task f = true) :
    MIN_BUF_LEN_FOR_ASYNC < f.bytes.length := by
  simpa [is_task] using h

/-- The scan of a task returns: a file above the threshold is not the 133-byte
file on which a 128-byte pattern loops. -/
theorem task_returns (needle : List Char) (hlen : needle.length ≤ MAX_NEEDLE_LEN) (f : File)
    (h : is_task f = true) : (m_file_searcher needle f).isSome = true := by
  have hs := is_task_size f h
  unfold MIN_BUF_LEN_FOR_ASYNC BUF_LEN_MAX at hs
  unfold m_file_searcher FileSearcher.call
  cases f.openable with
  | false => rfl
  | true =>
    obtain ⟨t, ht, -⟩ := scan_terminates f.bytes needle hlen (by omega)
    simp [ht]

set_option maxRecDepth 1000000 in
/-- C12 (failing input): pattern of 128 bytes `a`, traversal of a file `f` of
133 bytes `x` followed by a file `g` that holds the pattern at offset 1.  The
scan of `f` never returns, so both dispatchers stop there with nothing on
`std::cout`: the block of `g`, one match line, never appears. -/
theorem hung_scan_loses_later_blocks :
    m_file_searcher (List.replicate 128 'a')
      ⟨['d', '/', 'f'], ['f'], List.replicate 133 'x', true, none⟩ = none ∧
    block (List.replicate 128 'a')
      ⟨['d', '/', 'g'], ['g'], 'x' :: (List.replicate 128 'a' ++ ['x']), true, none⟩
      = "g(1):x...x\n".toList ∧
    (run_async (List.replicate 128 'a') 2
      [⟨['d', '/', 'f'], ['f'], List.replicate 133 'x', true, none⟩,
       ⟨['d', '/', 'g'], ['g'], 'x' :: (List.replicate 128 'a' ++ ['x']), true, none⟩]).stop
      = some Stop.hung ∧
    (run_async (List.replicate 128 'a') 2
      [⟨['d', '/', 'f'], ['f'], List.replicate 133 'x', true, none⟩,
       ⟨['d', '/', 'g'], ['g'], 'x' :: (List.replicate 128 'a' ++ ['x']), true, none⟩]).cout
      = [] ∧
    (run_sync (List.replicate 128 'a')
      [⟨['d', '/', 'f'], ['f'], List.replicate 133 'x', true, none⟩,
       ⟨['d', '/', 'g'], ['g'], 'x' :: (List.replicate 128 'a' ++ ['x']), true, none⟩]).stop
      = some Stop.hung := by
  refine ⟨?_, ?_, ?_, ?_, ?_⟩ <;> rfl

theorem conclude_search_vectors (needle : List Char) (st : AsyncState) :
    ((conclude_search needle st).m_futures = [] ∧ (conclude_search needle st).m_ostreams = []) ∨
    ((conclude_search needle st).m_futures = st.m_futures ∧
      (conclude_search needle st).m_ostreams = st.m_ostreams) := by
  unfold conclude_search
  have hf := flush_tasks_frame needle (st.m_futures.zip st.m_ostreams) st
  split
  · exact Or.inr ⟨rfl, rfl⟩
  · simp only
    split
    · exact Or.inr ⟨hf.2.1, hf.2.2.1⟩
    · exact Or.inl ⟨rfl, rfl⟩

/-- Every pending file is a task and its private stream is still empty. -/
theorem dispatch_search_pending (needle : List Char) (st : AsyncState) (f : File)
    (h : st.m_ostreams = List.replicate st.m_futures.length [] ∧
      ∀ g ∈ st.m_futures, is_task g = true) :
    (dispatch_search needle st f).m_ostreams =
        List.replicate (dispatch_search needle st f).m_futures.length [] ∧
      ∀ g ∈ (dispatch_search needle st f).m_futures, is_task g = true := by
  have hsub : (submit st f).m_ostreams = List.replicate (submit st f).m_futures.length [] := by
    simp only [submit, List.length_append, List.length_singleton, List.replicate_succ']
    rw [h.1]
  unfold dispatch_search
  split
  · exact h
  · split
    · exact h
    · split
      · rename_i hbig
        have htask : is_task f = true := by simp [is_task, hbig]
        have hsubt : ∀ g ∈ (submit st f).m_futures, is_task g = true := by
          intro g hg
          simp only [submit, List.mem_append, List.mem_singleton] at hg
          rcases hg with hg | rfl
          · exact h.2 g hg
          · exact htask
        simp only
        split
        · rcases conclude_search_vectors needle (submit st f) with ⟨e1, e2⟩ | ⟨e1, e2⟩
          · rw [e1, e2]
            exact ⟨rfl, by simp⟩
          · rw [e1, e2]
            exact ⟨hsub, hsubt⟩
        · exact ⟨hsub, hsubt⟩
      · split
        · exact h
        · exact h

/-- C16: the bound of a `DirDispatcherAsync` is `hardware_concurrency / 2` when
that is not zero and 2 otherwise, so at least 1.  After any sequence of
`dispatch_search` calls the two vectors have the same length, at most the bound
and below it while the run goes on (one more push reaches the bound at most),
every pending file is a task whose private stream is still empty, and after a
`conclude_search` that returns both vectors are empty.  For a pattern of at
most 128 bytes the scan of a task returns, its block being what it writes, and
while the run goes on: `conclude_search` appends the blocks of the pending tasks
to `std::cout` in submission order and clears both vectors; `dispatch_search`
of a file above the threshold whose size is known pushes it at the end of both
vectors when that leaves the batch below the bound, and when the batch reaches
the bound flushes it: the blocks of the pending tasks and of the new one are
appended to `std::cout` in submission order and both vectors are cleared. -/
theorem batch_bound (needle : List Char) (hardware_concurrency : Nat) (files : List File) :
    threads_num hardware_concurrency =
      (if hardware_concurrency / 2 = 0 then 2 else hardware_concurrency / 2) ∧
    1 ≤ threads_num hardware_concurrency ∧
    (files.foldl (dispatch_search needle) (DirDispatcherAsync.new hardware_concurrency)).m_threads_num
      = threads_num hardware_concurrency ∧
    (files.foldl (dispatch_search needle)
        (DirDispatcherAsync.new hardware_concurrency)).m_futures.length =
      (files.foldl (dispatch_search needle)
        (DirDispatcherAsync.new hardware_concurrency)).m_ostreams.length ∧
    (files.foldl (dispatch_search needle)
        (DirDispatcherAsync.new hardware_concurrency)).m_futures.length
      ≤ threads_num hardware_concurrency ∧
    ((files.foldl (dispatch_search needle) (DirDispatcherAsync.new hardware_concurrency)).stop
        = none →
      (files.foldl (dispatch_search needle)
          (DirDispatcherAsync.new hardware_concurrency)).m_futures.length
        < threads_num hardware_concurrency ∧
      ∀ f : File,
        (submit (files.foldl (dispatch_search needle)
          (DirDispatcherAsync.new hardware_concurrency)) f).m_futures.length
          ≤ threads_num hardware_concurrency ∧
        (submit (files.foldl (dispatch_search needle)
          (DirDispatcherAsync.new hardware_concurrency)) f).m_futures.length =
        (submit (files.foldl (dispatch_search needle)
          (DirDispatcherAsync.new hardware_concurrency)) f).m_ostreams.length) ∧
    (conclude_search needle (files.foldl (dispatch_search needle)
        (DirDispatcherAsync.new hardware_concurrency))).m_futures.length =
      (conclude_search needle (files.foldl (dispatch_search needle)
        (DirDispatcherAsync.new hardware_concurrency))).m_ostreams.length ∧
    ((conclude_search needle (files.foldl (dispatch_search needle)
        (DirDispatcherAsync.new hardware_concurrency))).stop = none →
      (conclude_search needle (files.foldl (dispatch_search needle)
        (DirDispatcherAsync.new hardware_concurrency))).m_futures.length = 0 ∧
      (conclude_search needle (files.foldl (dispatch_search needle)
        (DirDispatcherAsync.new hardware_concurrency))).m_ostreams.length = 0) ∧
    (files.foldl (dispatch_search needle)
        (DirDispatcherAsync.new hardware_concurrency)).m_ostreams =
      List.replicate (files.foldl (dispatch_search needle)
        (DirDispatcherAsync.new hardware_concurrency)).m_futures.length [] ∧
    (∀ g ∈ (files.foldl (dispatch_search needle)
        (DirDispatcherAsync.new hardware_concurrency)).m_futures, is_task g = true) ∧
    (needle.length ≤ MAX_NEEDLE_LEN →
      (∀ g : File, is_task g = true →
        ∃ w, m_file_searcher needle g = some w ∧ block needle g = w.cout ++ w.out) ∧
      ((files.foldl (dispatch_search needle) (DirDispatcherAsync.new hardware_concurrency)).stop
          = none →
        conclude_search needle (files.foldl (dispatch_search needle)
            (DirDispatcherAsync.new hardware_concurrency)) =
          { files.foldl (dispatch_search needle) (DirDispatcherAsync.new hardware_concurrency) with
            cout := (files.foldl (dispatch_search needle)
                (DirDispatcherAsync.new hardware_concurrency)).cout ++
              ((files.foldl (dispatch_search needle)
                (DirDispatcherAsync.new hardware_concurrency)).m_futures.map
                  (block needle)).flatten
            m_futures := []
            m_ostreams := [] } ∧
        ∀ f : File, f.size_error = none → MIN_BUF_LEN_FOR_ASYNC < f.bytes.length →
          ((files.foldl (dispatch_search needle)
              (DirDispatcherAsync.new hardware_concurrency)).m_futures.length + 1
              < threads_num hardware_concurrency →
            dispatch_search needle (files.foldl (dispatch_search needle)
                (DirDispatcherAsync.new hardware_concurrency)) f =
              { files.foldl (dispatch_search needle)
                  (DirDispatcherAsync.new hardware_concurrency) with
                m_futures := (files.foldl (dispatch_search needle)
                  (DirDispatcherAsync.new hardware_concurrency)).m_futures ++ [f]
                m_ostreams := (files.foldl (dispatch_search needle)
                  (DirDispatcherAsync.new hardware_concurrency)).m_ostreams ++ [[]] }) ∧
          (threads_num hardware_concurrency ≤ (files.foldl (dispatch_search needle)
              (DirDispatcherAsync.new hardware_concurrency)).m_futures.length + 1 →
            dispatch_search needle (files.foldl (dispatch_search needle)
                (DirDispatcherAsync.new hardware_concurrency)) f =
              { files.foldl (dispatch_search needle)
                  (DirDispatcherAsync.new hardware_concurrency) with
                cout := (files.foldl (dispatch_search needle)
                    (DirDispatcherAsync.new hardware_concurrency)).cout ++
                  (((files.foldl (dispatch_search needle)
                    (DirDispatcherAsync.new hardware_concurrency)).m_futures ++ [f]).map
                      (block needle)).flatten
                m_futures := []
                m_ostreams := [] }))) := by
  have hk : 1 ≤ threads_num hardware_concurrency := by
    unfold threads_num DEFAULT_THREADS_NUM
    split <;> omega
  have h0 : BatchInv (threads_num hardware_concurrency)
      (DirDispatcherAsync.new hardware_concurrency) :=
    ⟨rfl, rfl, by simp [DirDispatcherAsync.new, async_init],
      fun _ => by simp only [DirDispatcherAsync.new, async_init, List.length_nil]; omega⟩
  have h := foldl_invariant (BatchInv (threads_num hardware_concurrency))
    (dispatch_search needle) (fun s a hs => dispatch_search_batch needle _ hk s a hs) files _ h0
  have hp := foldl_invariant
    (fun st : AsyncState => st.m_ostreams = List.replicate st.m_futures.length [] ∧
      ∀ g ∈ st.m_futures, is_task g = true)
    (dispatch_search needle) (fun s a hs => dispatch_search_pending needle s a hs) files
    (DirDispatcherAsync.new hardware_concurrency)
    ⟨rfl, by simp [DirDispatcherAsync.new, async_init]⟩
  generalize files.foldl (dispatch_search needle) (DirDispatcherAsync.new hardware_concurrency)
    = st at h hp
  have hc := conclude_search_batch needle _ st h.bound h.same h.le
  refine ⟨rfl, hk, h.bound, h.same, h.le, ?_, hc.2.1, ?_, hp.1, hp.2, ?_⟩
  · intro hs
    have hlt := h.lt hs
    have hsame := h.same
    refine ⟨hlt, fun f => ⟨?_, ?_⟩⟩ <;>
      simp only [submit, List.length_append, List.length_singleton, List.length_nil] <;>
      omega
  · intro hs
    rw [(hc.2.2.2 hs).1, (hc.2.2.2 hs).2]
    exact ⟨rfl, rfl⟩
  · intro hlen
    constructor
    · intro g hg
      obtain ⟨w, hw⟩ := Option.isSome_iff_exists.mp (task_returns needle hlen g hg)
      exact ⟨w, hw, block_of_some needle g w hw⟩
    intro hs
    constructor
    · exact conclude_search_blocks needle st hs hp.1
        (fun g hg => task_returns needle hlen g (hp.2 g hg))
    · intro f hsize hbig
      have hcase := (dispatch_search_cases needle st f hs hsize).1 hbig
      have hb := h.bound
      have hlt0 := h.lt hs
      constructor
      · intro hlt
        rw [hcase, if_neg (by omega)]
        rfl
      · intro hge
        have htask : is_task f = true := by simp [is_task, hbig]
        have hsub : (submit st f).m_ostreams
            = List.replicate (submit st f).m_futures.length [] := by
          simp only [submit, List.length_append, List.length_singleton, List.replicate_succ']
          rw [hp.1]
        have hret : ∀ g ∈ (submit st f).m_futures,
            (m_file_searcher needle g).isSome = true := by
          intro g hg
          simp only [submit, List.mem_append, List.mem_singleton] at hg
          rcases hg with hg | rfl
          · exact task_returns needle hlen g (hp.2 g hg)
          · exact task_returns needle hlen g htask
        rw [hcase, if_pos (by omega), conclude_search_blocks needle (submit st f) hs hsub hret]
        rfl

set_option maxRecDepth 100000 in
theorem batch_bound_witness :
    "abc".toList.length ≤ MAX_NEEDLE_LEN ∧
    threads_num 2 = 1 ∧
    ([(⟨"d/a".toList, "a".toList, "xxabcxx".toList, true, none⟩ : File)].foldl
      (dispatch_search "abc".toList) (DirDispatcherAsync.new 2)).stop = none ∧
    dispatch_search "abc".toList
        ([(⟨"d/a".toList, "a".toList, "xxabcxx".toList, true, none⟩ : File)].foldl
          (dispatch_search "abc".toList) (DirDispatcherAsync.new 2))
        ⟨"d/big".toList, "big".toList, List.replicate 51200001 'x', true, none⟩ =
      { [(⟨"d/a".toList, "a".toList, "xxabcxx".toList, true, none⟩ : File)].foldl
          (dispatch_search "abc".toList) (DirDispatcherAsync.new 2) with
        cout := ([(⟨"d/a".toList, "a".toList, "xxabcxx".toList, true, none⟩ : File)].foldl
            (dispatch_search "abc".toList) (DirDispatcherAsync.new 2)).cout ++
          ((([(⟨"d/a".toList, "a".toList, "xxabcxx".toList, true, none⟩ : File)].foldl
            (dispatch_search "abc".toList) (DirDispatcherAsync.new 2)).m_futures ++
              [(⟨"d/big".toList, "big".toList, List.replicate 51200001 'x', true, none⟩ :
                File)]).map
            (block "abc".toList)).flatten
        m_futures := []
        m_ostreams := [] } :=
  ⟨by decide, by decide, by decide,
    ((((batch_bound "abc".toList 2
      [⟨"d/a".toList, "a".toList, "xxabcxx".toList, true, none⟩]).2.2.2.2.2.2.2.2.2.2
        (by decide)).2 (by decide)).2
      ⟨"d/big".toList, "big".toList, List.replicate 51200001 'x', true, none⟩ rfl
      (by rw [List.length_replicate]; decide)).2 (by decide)⟩

end Searcher
